import Mathlib

/-!
Verification development for the chatlog recording-and-delivery pipeline.

The Go source under `internal/recorder/recorder.go` and
`internal/uploader/uploader.go` is shallowly embedded here:

* strings are modelled as `List Char` (`Str`); the Go standard-library
  helpers used by the source (`strings.Split` with a one-character
  separator, `strings.Join`, `strings.TrimSuffix`) are given executable
  counterparts (`splitOnChar`, `goJoin`, `trimSuffixStr`);
* `generateS3Key` (uploader.go) is embedded together with the relevant
  fragment of Go's `time.Parse("20060102_1504", ...)` semantics;
* the retry loop `uploadWithRetry` (uploader.go) is embedded as a pure
  function parameterised by an oracle describing which attempts succeed
  and where the context is cancelled;
* the Recorder (recorder.go) is embedded as a state machine over an
  explicit state: the writer map, the disk (filename-addressed file
  contents, where `os.Create` truncates), the creation log and the
  bounded upload queue.  File contents are modelled at line granularity
  (one `Msg` per JSONL line); `bufio` buffering is not modelled
  separately because every write path in the source ends with `Flush()`.
-/

/-- Strings of the embedded program, modelled as character lists. -/
abbrev Str := List Char

/-- Coerce a Lean string literal into the embedding's string type. -/
def strL (s : String) : Str := s.data

/-! ## Go string helpers used by the source -/

/-- Models Go `strings.Split(s, sep)` for a one-character separator:
splitting the empty string yields `[""]`, adjacent separators yield
empty fields. -/
def splitOnChar (sep : Char) : Str → List Str
  | [] => [[]]
  | c :: cs =>
    match splitOnChar sep cs with
    | [] => [[c]]
    | r :: rs => if c = sep then [] :: r :: rs else (c :: r) :: rs

/-- Models Go `strings.Join(elems, sep)`. -/
def goJoin (sep : Str) : List Str → Str
  | [] => []
  | [x] => x
  | x :: xs => x ++ sep ++ goJoin sep xs

/-- Models Go `strings.TrimSuffix(s, suffix)`. -/
def trimSuffixStr (s suffix : Str) : Str :=
  if suffix.isSuffixOf s then s.take (s.length - suffix.length) else s

/-! ## Digit rendering (Go `fmt.Sprintf` `%0Nd` verbs) -/

/-- Decimal digits of a natural number. -/
def digitsOf (n : Nat) : Str := (toString n).data

/-- Models the Go format verb `%0wd`: zero-pad to width `w`. -/
def padNum (w n : Nat) : Str :=
  List.replicate (w - (digitsOf n).length) '0' ++ digitsOf n

/-! ## The fragment of Go `time.Parse("20060102_1504", s)` reached by
`generateS3Key`.  The input handed to `time.Parse` there is
`dateStr ++ "_" ++ timeStr` where neither part contains an underscore
(they are fields of a split on `'_'`), so the parse succeeds exactly
when `dateStr` is eight digits `YYYYMMDD` and `timeStr` four digits
`HHMM`, with month in 1..12, day valid for the month/year, hour ≤ 23
and minute ≤ 59. -/

/-- Numeric value of a digit string (Go `atoi` on validated digits). -/
def natOfDigits (l : Str) : Nat :=
  l.foldl (fun a c => a * 10 + (c.toNat - 48)) 0

/-- All characters are decimal digits. -/
def allDigits (l : Str) : Bool := l.all Char.isDigit

/-- Gregorian leap year, as in Go `time`. -/
def isLeap (y : Nat) : Bool := y % 4 == 0 && (y % 100 != 0 || y % 400 == 0)

/-- Days in a month, as in Go `time.daysIn`. -/
def daysInMonth (y m : Nat) : Nat :=
  if m = 2 then (if isLeap y then 29 else 28)
  else if m = 4 ∨ m = 6 ∨ m = 9 ∨ m = 11 then 30
  else 31

/-- Models `time.Parse("20060102_1504", dateStr ++ "_" ++ timeStr)` for
underscore-free `dateStr`, `timeStr`: returns the (year, month, day) on
success, `none` on any parse or range error.  The hour and minute are
validated but not returned because `generateS3Key` only uses the date. -/
def parseGoTimestamp (dateStr timeStr : Str) : Option (Nat × Nat × Nat) :=
  if dateStr.length = 8 ∧ allDigits dateStr ∧ timeStr.length = 4 ∧ allDigits timeStr then
    let y := natOfDigits (dateStr.take 4)
    let mo := natOfDigits ((dateStr.drop 4).take 2)
    let d := natOfDigits (dateStr.drop 6)
    let h := natOfDigits (timeStr.take 2)
    let mi := natOfDigits (timeStr.drop 2)
    if 1 ≤ mo ∧ mo ≤ 12 ∧ 1 ≤ d ∧ d ≤ daysInMonth y mo ∧ h ≤ 23 ∧ mi ≤ 59 then
      some (y, mo, d)
    else none
  else none

/-- The `".jsonl"` extension. -/
def jsonlExt : Str := strL ".jsonl"

/-- Embedding of `generateS3Key` (uploader.go):
trim the `.jsonl` extension, split on `'_'`, require at least four
fields, take the first field as platform, the last two as date/time,
re-join everything between as the channel, parse the timestamp, and
assemble `YYYY/MM/DD/platform/channel/filename`.  `none` models the
error return (the spec's `FormatError`). -/
def generateS3Key (filename : Str) : Option Str :=
  let nameWithoutExt := trimSuffixStr filename jsonlExt
  let parts := splitOnChar '_' nameWithoutExt
  if parts.length < 4 then none
  else
    let platform := parts.getD 0 []
    let dateStr := parts.getD (parts.length - 2) []
    let timeStr := parts.getD (parts.length - 1) []
    let channel := goJoin (strL "_") ((parts.drop 1).dropLast.dropLast)
    match parseGoTimestamp dateStr timeStr with
    | none => none
    | some (y, mo, d) =>
      some (padNum 4 y ++ '/' :: padNum 2 mo ++ '/' :: padNum 2 d ++
            '/' :: platform ++ '/' :: channel ++ '/' :: filename)

example : generateS3Key (strL "twitch_ludwig_20251230_1030.jsonl") =
    some (strL "2025/12/30/twitch/ludwig/twitch_ludwig_20251230_1030.jsonl") := by decide

example : generateS3Key (strL "twitch_some_long_name_20251230_1030.jsonl") =
    some (strL "2025/12/30/twitch/some_long_name/twitch_some_long_name_20251230_1030.jsonl") := by
  decide

example : generateS3Key (strL "bad.jsonl") = none := by decide

example : generateS3Key (strL "twitch_a_20251399_1030.jsonl") = none := by decide

/-! ## Uploader: `uploadWithRetry` (uploader.go)

The loop is embedded as a pure function.  The environment is an oracle:
`succeeds i` tells whether the `i`-th call of `uploadFile` (0-indexed)
returns `nil`, and `cancelled i` tells whether `ctx.Done()` fires during
the backoff select that follows a failed attempt `i`.  The result
records the observable behaviour the claims talk about: the number of
upload attempts performed, the list of completed backoff sleeps (in
seconds, in order), whether an upload succeeded, and whether the local
file was deleted. -/

/-- Observable outcome of one `uploadWithRetry` execution. -/
structure URes where
  attempts : Nat
  backoffs : List Nat
  uploaded : Bool
  deleted : Bool
deriving DecidableEq, Repr

/-- The retry loop body `for attempt := 0; attempt <= maxRetries; attempt++`
of `uploadWithRetry`, starting at attempt index `attempt` with `fuel`
remaining iterations (`fuel = maxRetries + 1 - attempt` at the entry
point). -/
def uploadGo (maxRetries : Nat) (deleteAfter : Bool)
    (succeeds cancelled : Nat → Bool) : Nat → Nat → URes
  | _, 0 => ⟨0, [], false, false⟩
  | attempt, fuel + 1 =>
    if succeeds attempt then
      { attempts := 1, backoffs := [], uploaded := true, deleted := deleteAfter }
    else if attempt < maxRetries then
      if cancelled attempt then
        { attempts := 1, backoffs := [], uploaded := false, deleted := false }
      else
        let r := uploadGo maxRetries deleteAfter succeeds cancelled (attempt + 1) fuel
        { attempts := r.attempts + 1, backoffs := 2 ^ attempt :: r.backoffs,
          uploaded := r.uploaded, deleted := r.deleted }
    else
      { attempts := 1, backoffs := [], uploaded := false, deleted := false }

/-- Embedding of `uploadWithRetry` (uploader.go): derive the S3 key from
the file's base name; on a key-derivation error log and return without
any upload attempt; otherwise run the retry loop from attempt 0. -/
def uploadWithRetry (maxRetries : Nat) (deleteAfter : Bool) (filename : Str)
    (succeeds cancelled : Nat → Bool) : URes :=
  match generateS3Key filename with
  | none => ⟨0, [], false, false⟩
  | some _ => uploadGo maxRetries deleteAfter succeeds cancelled 0 (maxRetries + 1)

example :
    uploadWithRetry 3 true (strL "twitch_ludwig_20251230_1030.jsonl")
      (fun i => decide (2 ≤ i)) (fun _ => false) =
    { attempts := 3, backoffs := [1, 2], uploaded := true, deleted := true } := by
  decide

/-! ## Recorder: data model (recorder.go)

Time is modelled as a natural number of seconds since the Unix epoch
(UTC).  The filename timestamp `time.Now().UTC().Format("20060102_1504")`
has minute precision, so it factors through `now / 60`. -/

/-- `internal/message.Message`: one normalized chat message. -/
structure Msg where
  platform : Str
  timestamp : Str
  channel : Str
  username : Str
  userID : Str
  body : Str
  badges : Str
deriving DecidableEq, Repr

/-- Models the bytes of `json.Marshal` of a `Message` (modulo JSON string
escaping, which no claim depends on); `badges` carries `omitempty`.
Only its length feeds the `bytesWritten` counter. -/
def encodeMsg (m : Msg) : Str :=
  strL "\x7b\"platform\":\"" ++ m.platform ++
  strL "\",\"timestamp\":\"" ++ m.timestamp ++
  strL "\",\"channel\":\"" ++ m.channel ++
  strL "\",\"username\":\"" ++ m.username ++
  strL "\",\"user_id\":\"" ++ m.userID ++
  strL "\",\"message\":\"" ++ m.body ++
  (if m.badges = [] then [] else strL "\",\"badges\":\"" ++ m.badges) ++
  strL "\"\x7d"

/-- The writer-map key `fmt.Sprintf("%s_%s", msg.Platform, msg.Channel)`. -/
def msgKey (m : Msg) : Str := m.platform ++ '_' :: m.channel

/-- `fileWriter` (recorder.go): state of one open JSONL segment file.
The `*os.File` / `bufio.Writer` handles live in `RecState.disk`. -/
structure FileWriter where
  createdAt : Nat
  bytesWritten : Nat
  messageBuffer : List Msg
  platform : Str
  channel : Str
  filename : Str
deriving DecidableEq, Repr

/-- The configuration fields of `Recorder` (recorder.go); `rotateBytes`
is the already-converted `int64(rotateMegabytes) * 1024 * 1024`, and
`queueCap` is the capacity of the `fileChan` channel. -/
structure Cfg where
  bufferSize : Nat
  rotateMinutes : Nat
  rotateBytes : Nat
  queueCap : Nat
deriving DecidableEq, Repr

/-- Recorder state: the writer map `currentFiles`, the local filesystem
(`disk`, filename-addressed contents at line granularity), the log of
(key, filename) writer creations in chronological order, and the
contents of the bounded `fileChan` queue. -/
structure RecState where
  currentFiles : List (Str × FileWriter)
  disk : List (Str × List Msg)
  createdLog : List (Str × Str)
  queue : List Str
deriving DecidableEq, Repr

/-- Association-list lookup (Go map read). -/
def alookup {β : Type} : List (Str × β) → Str → Option β
  | [], _ => none
  | (k', v) :: rest, k => if k' = k then some v else alookup rest k

/-- Association-list update (Go map write): remove any binding of `k`,
then append the new one. -/
def aset {β : Type} (l : List (Str × β)) (k : Str) (v : β) : List (Str × β) :=
  l.filter (fun e => decide (e.1 ≠ k)) ++ [(k, v)]

/-- Association-list removal (Go `delete`). -/
def aerase {β : Type} (l : List (Str × β)) (k : Str) : List (Str × β) :=
  l.filter (fun e => decide (e.1 ≠ k))

/-- `os.Create`: truncates the named file to empty (creating it if new). -/
def diskCreate (d : List (Str × List Msg)) (name : Str) : List (Str × List Msg) :=
  aset d name []

/-- Append flushed lines to the named file. -/
def diskAppend (d : List (Str × List Msg)) (name : Str) (msgs : List Msg) :
    List (Str × List Msg) :=
  aset d name ((alookup d name).getD [] ++ msgs)

/-! ### Filename timestamps -/

/-- Civil date (year, month, day) from days since 1970-01-01
(Gregorian; the standard era-based conversion). -/
def civilFromDays (z0 : Nat) : Nat × Nat × Nat :=
  let z := z0 + 719468
  let era := z / 146097
  let doe := z % 146097
  let yoe := (doe - doe / 1460 + doe / 36524 - doe / 146096) / 365
  let doy := doe - (365 * yoe + yoe / 4 - yoe / 100)
  let mp := (5 * doy + 2) / 153
  let d := doy - (153 * mp + 2) / 5 + 1
  let m := if mp < 10 then mp + 3 else mp - 9
  (yoe + era * 400 + (if m ≤ 2 then 1 else 0), m, d)

/-- `time.Now().UTC().Format("20060102_1504")` at `now` seconds since
the epoch: minute precision, so the result depends only on `now / 60`. -/
def timestampStr (now : Nat) : Str :=
  let minutes := now / 60
  let ymd := civilFromDays (minutes / 1440)
  padNum 4 ymd.1 ++ padNum 2 ymd.2.1 ++ padNum 2 ymd.2.2 ++
  '_' :: padNum 2 ((minutes / 60) % 24) ++ padNum 2 (minutes % 60)

/-- The segment filename `fmt.Sprintf("%s_%s_%s.jsonl", platform,
channel, timestamp)` built by `createFileWriter`. -/
def wname (platform channel : Str) (now : Nat) : Str :=
  platform ++ '_' :: channel ++ '_' :: timestampStr now ++ jsonlExt

/-- The `fileWriter` value built by `createFileWriter` at time `now`
(the `os.Create` side effect is applied by the callers below). -/
def mkWriter (now : Nat) (platform channel : Str) : FileWriter :=
  { createdAt := now, bytesWritten := 0, messageBuffer := [],
    platform := platform, channel := channel,
    filename := wname platform channel now }

example : timestampStr ((20452 * 1440 + 10 * 60 + 30) * 60) = strL "20251230_1030" := by decide

/-! ### Recorder operations -/

/-- Total bytes the buffered messages contribute to `bytesWritten`:
each line is its JSON encoding plus the newline byte. -/
def bufBytes (l : List Msg) : Nat :=
  (l.map (fun m => (encodeMsg m).length + 1)).sum

/-- `flushFileWriter` (recorder.go): write every buffered message and a
newline, clear the buffer, flush to disk.  Returns the updated writer
and disk. -/
def flushFW (fw : FileWriter) (disk : List (Str × List Msg)) :
    FileWriter × List (Str × List Msg) :=
  ({ fw with messageBuffer := [],
             bytesWritten := fw.bytesWritten + bufBytes fw.messageBuffer },
   diskAppend disk fw.filename fw.messageBuffer)

/-- Tail of `recordMessage`: append the message to the writer's buffer
and flush synchronously if the buffer reached `bufferSize`. -/
def appendAndFlush (cfg : Cfg) (key : Str) (fw : FileWriter) (msg : Msg)
    (st : RecState) : RecState :=
  let fw1 := { fw with messageBuffer := fw.messageBuffer ++ [msg] }
  if cfg.bufferSize ≤ fw1.messageBuffer.length then
    let r := flushFW fw1 st.disk
    { st with disk := r.2, currentFiles := aset st.currentFiles key r.1 }
  else
    { st with currentFiles := aset st.currentFiles key fw1 }

/-- `recordMessage` (recorder.go).  `createOk` tells whether the
`os.Create` inside `createFileWriter` succeeds when a new writer is
needed; on failure the function returns an error (second component
`false`) and the state is unchanged. -/
def recordMessage (cfg : Cfg) (now : Nat) (createOk : Bool) (msg : Msg)
    (st : RecState) : RecState × Bool :=
  let key := msgKey msg
  match alookup st.currentFiles key with
  | some fw => (appendAndFlush cfg key fw msg st, true)
  | none =>
    if createOk then
      let fw := mkWriter now msg.platform msg.channel
      let st1 := { st with disk := diskCreate st.disk fw.filename,
                           createdLog := st.createdLog ++ [(key, fw.filename)],
                           currentFiles := aset st.currentFiles key fw }
      (appendAndFlush cfg key fw msg st1, true)
    else (st, false)

/-- `rotateFile` (recorder.go): flush the remaining buffer, close the
file, enqueue the completed segment non-blockingly (drop when the queue
is at capacity), then create the replacement writer; if that creation
fails, remove the key from the map. -/
def rotateFile (cfg : Cfg) (now : Nat) (createOk : Bool) (key : Str)
    (fw : FileWriter) (st : RecState) : RecState :=
  let disk1 := (flushFW fw st.disk).2
  let queue1 := if st.queue.length < cfg.queueCap then st.queue ++ [fw.filename]
                else st.queue
  if createOk then
    let nfw := mkWriter now fw.platform fw.channel
    { currentFiles := aset st.currentFiles key nfw,
      disk := diskCreate disk1 nfw.filename,
      createdLog := st.createdLog ++ [(key, nfw.filename)],
      queue := queue1 }
  else
    { currentFiles := aerase st.currentFiles key,
      disk := disk1,
      createdLog := st.createdLog,
      queue := queue1 }

/-- The rotation trigger of `checkRotation`:
`time.Since(fw.createdAt).Minutes() >= float64(rotateMinutes)` OR
`fw.bytesWritten >= rotateMegabytes`. -/
def shouldRotate (cfg : Cfg) (now : Nat) (fw : FileWriter) : Bool :=
  decide (cfg.rotateMinutes * 60 ≤ now - fw.createdAt) ||
  decide (cfg.rotateBytes ≤ fw.bytesWritten)

/-- `checkRotation` (recorder.go): for every active writer, rotate when
the trigger holds.  The range loop is modelled as a fold over the
entries present when the check starts; a rotation only touches its own
key, matching Go's guarantee that each key is produced at most once. -/
def checkRotation (cfg : Cfg) (now : Nat) (createOk : Bool) (st : RecState) :
    RecState :=
  st.currentFiles.foldl
    (fun acc e => if shouldRotate cfg now e.2 then rotateFile cfg now createOk e.1 e.2 acc else acc)
    st

/-- One iteration of the `flushAll` loop: flush the writer's buffer,
close the file, enqueue non-blockingly, delete the key. -/
def flushAllStep (cfg : Cfg) (st : RecState) (e : Str × FileWriter) : RecState :=
  let disk1 := (flushFW e.2 st.disk).2
  let queue1 := if st.queue.length < cfg.queueCap then st.queue ++ [e.2.filename]
                else st.queue
  { currentFiles := aerase st.currentFiles e.1,
    disk := disk1,
    createdLog := st.createdLog,
    queue := queue1 }

/-- `flushAll` (recorder.go): the shutdown flush over all active writers. -/
def flushAll (cfg : Cfg) (st : RecState) : RecState :=
  st.currentFiles.foldl (flushAllStep cfg) st

/-! ### Traces -/

/-- An externally visible step of the Recorder's `Start` loop during
normal operation (all `os.Create` calls succeed): a message arrival at
time `now`, or a rotation-ticker tick at time `now`. -/
inductive ROp where
  | record (now : Nat) (msg : Msg)
  | tick (now : Nat)
deriving DecidableEq, Repr

/-- Apply one step. -/
def rstep (cfg : Cfg) (st : RecState) : ROp → RecState
  | .record now msg => (recordMessage cfg now true msg st).1
  | .tick now => checkRotation cfg now true st

/-- Run a trace of steps. -/
def rrun (cfg : Cfg) (st : RecState) (ops : List ROp) : RecState :=
  ops.foldl (rstep cfg) st

/-- The empty initial state. -/
def st0 : RecState := ⟨[], [], [], []⟩

/-- The messages for key `k`, in arrival order, of a trace. -/
def arrivals (k : Str) (ops : List ROp) : List Msg :=
  ops.filterMap fun op =>
    match op with
    | .record _ msg => if msgKey msg = k then some msg else none
    | .tick _ => none

/-- Concatenation of the contents of the segment files created for key
`k`, in file-creation order. -/
def segConcat (st : RecState) (k : Str) : List Msg :=
  (((st.createdLog.filter (fun e => decide (e.1 = k))).map
      (fun e => (alookup st.disk e.2).getD [])).flatten)

/-- The pending (buffered, unflushed) messages of key `k`'s active
writer, if any. -/
def bufOf (st : RecState) (k : Str) : List Msg :=
  match alookup st.currentFiles k with
  | some fw => fw.messageBuffer
  | none => []

/-- All messages recorded for key `k` that the state still accounts
for: flushed file contents plus the active buffer. -/
def history (st : RecState) (k : Str) : List Msg :=
  segConcat st k ++ bufOf st k

/-- The writer-map key a `fileWriter` belongs under. -/
def fwKey (fw : FileWriter) : Str := fw.platform ++ '_' :: fw.channel

/-- `segConcat` over explicit log and disk components. -/
def segCat (log : List (Str × Str)) (disk : List (Str × List Msg)) (k : Str) :
    List Msg :=
  ((log.filter (fun e => decide (e.1 = k))).map
    (fun e => (alookup disk e.2).getD [])).flatten

/-! ## Association-list lemmas -/

theorem alookup_append {β : Type} (l₁ l₂ : List (Str × β)) (k : Str) :
    alookup (l₁ ++ l₂) k =
      match alookup l₁ k with
      | some v => some v
      | none => alookup l₂ k := by
  induction l₁ with
  | nil => simp [alookup]
  | cons e rest ih =>
    by_cases h : e.1 = k <;> simp [alookup, h, ih]

theorem alookup_filter_ne_self {β : Type} (l : List (Str × β)) (k : Str) :
    alookup (l.filter fun e => decide (e.1 ≠ k)) k = none := by
  induction l with
  | nil => simp [alookup]
  | cons e rest ih =>
    by_cases h : e.1 = k
    · simpa [List.filter_cons, h] using ih
    · simpa [List.filter_cons, h, alookup] using ih

theorem alookup_filter_ne_other {β : Type} (l : List (Str × β)) (k k' : Str)
    (h : k' ≠ k) :
    alookup (l.filter fun e => decide (e.1 ≠ k)) k' = alookup l k' := by
  induction l with
  | nil => simp
  | cons e rest ih =>
    have hkk : ¬k = k' := fun hk => h hk.symm
    by_cases he : e.1 = k
    · have hne : ¬e.1 = k' := by rw [he]; exact fun hk => h hk.symm
      simpa [List.filter_cons, he, alookup, hne, hkk] using ih
    · by_cases he' : e.1 = k'
      · simp [List.filter_cons, he, he', alookup, h]
      · simpa [List.filter_cons, he, he', alookup] using ih

theorem alookup_aset_self {β : Type} (l : List (Str × β)) (k : Str) (v : β) :
    alookup (aset l k v) k = some v := by
  rw [aset, alookup_append, alookup_filter_ne_self]
  simp [alookup]

theorem alookup_aset_other {β : Type} (l : List (Str × β)) (k k' : Str) (v : β)
    (h : k' ≠ k) :
    alookup (aset l k v) k' = alookup l k' := by
  rw [aset, alookup_append, alookup_filter_ne_other l k k' h]
  have hkk : ¬k = k' := fun hk => h hk.symm
  cases hl : alookup l k' <;> simp [alookup, hkk]

theorem alookup_aerase_self {β : Type} (l : List (Str × β)) (k : Str) :
    alookup (aerase l k) k = none :=
  alookup_filter_ne_self l k

theorem alookup_aerase_other {β : Type} (l : List (Str × β)) (k k' : Str)
    (h : k' ≠ k) :
    alookup (aerase l k) k' = alookup l k' :=
  alookup_filter_ne_other l k k' h

theorem alookup_of_mem_nodup {β : Type} (l : List (Str × β)) (k : Str) (v : β)
    (hnd : (l.map Prod.fst).Nodup) (hm : (k, v) ∈ l) :
    alookup l k = some v := by
  induction l with
  | nil => cases hm
  | cons e rest ih =>
    rcases List.mem_cons.mp hm with h | h
    · subst h; simp [alookup]
    · have hk : e.1 ≠ k := by
        intro hek
        have : k ∈ rest.map Prod.fst := List.mem_map.mpr ⟨(k, v), h, rfl⟩
        rw [List.map_cons, List.nodup_cons] at hnd
        exact hnd.1 (hek ▸ this)
      rw [List.map_cons, List.nodup_cons] at hnd
      simp [alookup, hk, ih hnd.2 h]

/-! ## Uploader lemmas -/

theorem uploadGo_attempts_le (mr : Nat) (da : Bool) (s c : Nat → Bool) :
    ∀ (fuel attempt : Nat), (uploadGo mr da s c attempt fuel).attempts ≤ fuel := by
  intro fuel
  induction fuel with
  | zero => intro attempt; simp [uploadGo]
  | succ n ih =>
    intro attempt
    simp only [uploadGo]
    by_cases hs : s attempt
    · simp [hs]
    · by_cases hlt : attempt < mr
      · by_cases hc : c attempt
        · simp [hs, hlt, hc]
        · simp only [hs, hlt, hc, if_true, if_false, Bool.false_eq_true]
          exact Nat.succ_le_succ (ih (attempt + 1))
      · simp [hs, hlt]

theorem uploadGo_backoffs (mr : Nat) (da : Bool) (s c : Nat → Bool) :
    ∀ (fuel attempt : Nat),
      (uploadGo mr da s c attempt fuel).backoffs =
        (List.range' attempt (uploadGo mr da s c attempt fuel).backoffs.length).map
          (2 ^ ·) := by
  intro fuel
  induction fuel with
  | zero => intro attempt; simp [uploadGo]
  | succ n ih =>
    intro attempt
    simp only [uploadGo]
    by_cases hs : s attempt
    · simp [hs]
    · by_cases hlt : attempt < mr
      · by_cases hc : c attempt
        · simp [hs, hlt, hc]
        · simp only [hs, hlt, hc, if_true, if_false, Bool.false_eq_true]
          simp only [List.length_cons, List.range'_succ, List.map_cons]
          exact congrArg (List.cons (2 ^ attempt)) (ih (attempt + 1))
      · simp [hs, hlt]

theorem uploadGo_deleted (mr : Nat) (da : Bool) (s c : Nat → Bool) :
    ∀ (fuel attempt : Nat),
      (uploadGo mr da s c attempt fuel).deleted =
        (da && (uploadGo mr da s c attempt fuel).uploaded) := by
  intro fuel
  induction fuel with
  | zero => intro attempt; simp [uploadGo]
  | succ n ih =>
    intro attempt
    simp only [uploadGo]
    by_cases hs : s attempt
    · simp [hs]
    · by_cases hlt : attempt < mr
      · by_cases hc : c attempt
        · simp [hs, hlt, hc]
        · simp only [hs, hlt, hc, if_true, if_false, Bool.false_eq_true]
          exact ih (attempt + 1)
      · simp [hs, hlt]

theorem uploadGo_uploaded_succeeds (mr : Nat) (da : Bool) (s c : Nat → Bool) :
    ∀ (fuel attempt : Nat),
      (uploadGo mr da s c attempt fuel).uploaded = true →
      ∃ i, attempt ≤ i ∧ i < attempt + fuel ∧ s i = true := by
  intro fuel
  induction fuel with
  | zero => intro attempt h; simp [uploadGo] at h
  | succ n ih =>
    intro attempt h
    simp only [uploadGo] at h
    by_cases hs : s attempt
    · exact ⟨attempt, Nat.le_refl _, by omega, hs⟩
    · by_cases hlt : attempt < mr
      · by_cases hc : c attempt
        · simp [hs, hlt, hc] at h
        · simp only [hs, hlt, hc, if_true, if_false, Bool.false_eq_true] at h
          obtain ⟨i, h1, h2, h3⟩ := ih (attempt + 1) h
          exact ⟨i, by omega, by omega, h3⟩
      · simp [hs, hlt] at h

/-- C3: for every file and every `maxRetries ≥ 0`, `uploadWithRetry`
performs at most `maxRetries + 1` upload attempts and the completed
backoff sleeps are exactly `2^0, 2^1, ...` seconds in order (one after
each failed attempt except the last); in particular, with
`maxRetries = 3` and a store failing the first two attempts and
succeeding on the third, exactly 3 attempts are made, with backoff
delays of 1s then 2s, and the local file is deleted only after the
third, successful attempt when delete-after-upload is enabled. -/
theorem claim_C3_retry_attempts_and_backoffs :
    (∀ (mr : Nat) (da : Bool) (fn : Str) (s c : Nat → Bool),
      (uploadWithRetry mr da fn s c).attempts ≤ mr + 1 ∧
      (uploadWithRetry mr da fn s c).backoffs =
        (List.range (uploadWithRetry mr da fn s c).backoffs.length).map (2 ^ ·)) ∧
    uploadWithRetry 3 true (strL "twitch_ludwig_20251230_1030.jsonl")
        (fun i => decide (2 ≤ i)) (fun _ => false) =
      { attempts := 3, backoffs := [1, 2], uploaded := true, deleted := true } := by
  refine ⟨fun mr da fn s c => ?_, by decide⟩
  unfold uploadWithRetry
  cases hk : generateS3Key fn with
  | none => exact ⟨Nat.zero_le _, rfl⟩
  | some key =>
    refine ⟨uploadGo_attempts_le mr da s c (mr + 1) 0, ?_⟩
    rw [List.range_eq_range']
    exact uploadGo_backoffs mr da s c (mr + 1) 0

/-- C4: the local file is deleted exactly when some upload attempt
succeeded and delete-after-upload is enabled; exhausted retries, an
invalid derived key, and cancellation during backoff all leave the file
in place. -/
theorem claim_C4_delete_only_after_confirmed_upload :
    ∀ (mr : Nat) (da : Bool) (fn : Str) (s c : Nat → Bool),
      (uploadWithRetry mr da fn s c).deleted =
        (da && (uploadWithRetry mr da fn s c).uploaded) ∧
      ((uploadWithRetry mr da fn s c).uploaded = true →
        ∃ i, i ≤ mr ∧ s i = true) := by
  intro mr da fn s c
  unfold uploadWithRetry
  cases hk : generateS3Key fn with
  | none => exact ⟨by simp, by simp⟩
  | some key =>
    refine ⟨uploadGo_deleted mr da s c (mr + 1) 0, fun h => ?_⟩
    obtain ⟨i, _, h2, h3⟩ := uploadGo_uploaded_succeeds mr da s c (mr + 1) 0 h
    exact ⟨i, by omega, h3⟩

/-- Witness for C4 at a concrete input. -/
theorem claim_C4_witness :
    (uploadWithRetry 3 true (strL "twitch_ludwig_20251230_1030.jsonl")
        (fun i => decide (2 ≤ i)) (fun _ => false)).deleted =
      (true && (uploadWithRetry 3 true (strL "twitch_ludwig_20251230_1030.jsonl")
        (fun i => decide (2 ≤ i)) (fun _ => false)).uploaded) ∧
    ((uploadWithRetry 3 true (strL "twitch_ludwig_20251230_1030.jsonl")
        (fun i => decide (2 ≤ i)) (fun _ => false)).uploaded = true →
      ∃ i, i ≤ 3 ∧ (fun i => decide (2 ≤ i)) i = true) :=
  claim_C4_delete_only_after_confirmed_upload 3 true
    (strL "twitch_ludwig_20251230_1030.jsonl") (fun i => decide (2 ≤ i)) (fun _ => false)

/-- C6: a filename with fewer than four underscore-separated tokens, or
whose last two tokens do not parse against the fixed `YYYYMMDD_HHMM`
pattern, yields a key-derivation error (`FormatError`); for such a file
`uploadWithRetry` performs zero upload attempts, sleeps no backoff, and
does not delete the file. -/
theorem claim_C6_invalid_filename_not_retried :
    ∀ (fn : Str),
      ((splitOnChar '_' (trimSuffixStr fn jsonlExt)).length < 4 ∨
        parseGoTimestamp
          ((splitOnChar '_' (trimSuffixStr fn jsonlExt)).getD
            ((splitOnChar '_' (trimSuffixStr fn jsonlExt)).length - 2) [])
          ((splitOnChar '_' (trimSuffixStr fn jsonlExt)).getD
            ((splitOnChar '_' (trimSuffixStr fn jsonlExt)).length - 1) []) = none) →
      generateS3Key fn = none ∧
      ∀ (mr : Nat) (da : Bool) (s c : Nat → Bool),
        uploadWithRetry mr da fn s c = ⟨0, [], false, false⟩ := by
  intro fn h
  have hkey : generateS3Key fn = none := by
    unfold generateS3Key
    rcases h with h | h
    · simp [h]
    · by_cases hlen : (splitOnChar '_' (trimSuffixStr fn jsonlExt)).length < 4
      · simp [hlen]
      · simp only [List.getD_eq_getElem?_getD] at h
        simp [hlen, h]
  refine ⟨hkey, fun mr da s c => ?_⟩
  unfold uploadWithRetry
  rw [hkey]

/-- Witness for C6 at a concrete input. -/
theorem claim_C6_witness :
    generateS3Key (strL "bad.jsonl") = none ∧
    ∀ (mr : Nat) (da : Bool) (s c : Nat → Bool),
      uploadWithRetry mr da (strL "bad.jsonl") s c = ⟨0, [], false, false⟩ :=
  claim_C6_invalid_filename_not_retried (strL "bad.jsonl") (Or.inl (by decide))

/-! ## Rotation lemmas -/

theorem rotateFile_lookup_other (cfg : Cfg) (now : Nat) (ok : Bool) (key : Str)
    (fw : FileWriter) (st : RecState) (k' : Str) (h : k' ≠ key) :
    alookup (rotateFile cfg now ok key fw st).currentFiles k' =
      alookup st.currentFiles k' := by
  unfold rotateFile
  cases ok <;>
    simp [alookup_aset_other _ _ _ _ h, alookup_aerase_other _ _ _ h]

theorem rotateFile_lookup_self (cfg : Cfg) (now : Nat) (ok : Bool) (key : Str)
    (fw : FileWriter) (st : RecState) :
    alookup (rotateFile cfg now ok key fw st).currentFiles key =
      if ok then some (mkWriter now fw.platform fw.channel) else none := by
  unfold rotateFile
  cases ok <;> simp [alookup_aset_self, alookup_aerase_self]

/-- The fold performed by `checkRotation`, abstracted over the snapshot. -/
def rotFold (cfg : Cfg) (now : Nat) (ok : Bool)
    (l : List (Str × FileWriter)) (acc : RecState) : RecState :=
  l.foldl
    (fun acc e => if shouldRotate cfg now e.2 then rotateFile cfg now ok e.1 e.2 acc else acc)
    acc

theorem checkRotation_eq_rotFold (cfg : Cfg) (now : Nat) (ok : Bool) (st : RecState) :
    checkRotation cfg now ok st = rotFold cfg now ok st.currentFiles st := rfl

theorem rotFold_cons (cfg : Cfg) (now : Nat) (ok : Bool) (e : Str × FileWriter)
    (rest : List (Str × FileWriter)) (acc : RecState) :
    rotFold cfg now ok (e :: rest) acc =
      rotFold cfg now ok rest
        (if shouldRotate cfg now e.2 then rotateFile cfg now ok e.1 e.2 acc else acc) := rfl

theorem rotFold_lookup_preserved (cfg : Cfg) (now : Nat) (ok : Bool) :
    ∀ (l : List (Str × FileWriter)) (acc : RecState) (k : Str),
      (∀ e ∈ l, e.1 ≠ k) →
      alookup (rotFold cfg now ok l acc).currentFiles k =
        alookup acc.currentFiles k := by
  intro l
  induction l with
  | nil => intro acc k _; rfl
  | cons e rest ih =>
    intro acc k h
    have he : e.1 ≠ k := h e (List.mem_cons_self e rest)
    have hrest : ∀ e' ∈ rest, e'.1 ≠ k := fun e' m => h e' (List.mem_cons_of_mem e m)
    rw [rotFold_cons]
    by_cases hrot : shouldRotate cfg now e.2
    · rw [if_pos hrot, ih _ _ hrest,
          rotateFile_lookup_other _ _ _ _ _ _ _ (Ne.symm he)]
    · rw [if_neg hrot]
      exact ih _ _ hrest

theorem rotFold_lookup_mem (cfg : Cfg) (now : Nat) (ok : Bool) :
    ∀ (l : List (Str × FileWriter)) (acc : RecState) (k : Str) (fw : FileWriter),
      (l.map Prod.fst).Nodup → (k, fw) ∈ l →
      alookup (rotFold cfg now ok l acc).currentFiles k =
        (if shouldRotate cfg now fw then
          (if ok then some (mkWriter now fw.platform fw.channel) else none)
        else alookup acc.currentFiles k) := by
  intro l
  induction l with
  | nil => intro acc k fw _ hm; cases hm
  | cons e rest ih =>
    intro acc k fw hnd hm
    rw [List.map_cons, List.nodup_cons] at hnd
    rw [rotFold_cons]
    rcases List.mem_cons.mp hm with hh | hh
    · subst hh
      have hrest : ∀ e' ∈ rest, e'.1 ≠ k := by
        intro e' m hek
        exact hnd.1 (List.mem_map.mpr ⟨e', m, hek⟩)
      by_cases hrot : shouldRotate cfg now fw
      · rw [show (if shouldRotate cfg now (k, fw).2 then rotateFile cfg now ok (k, fw).1 (k, fw).2 acc else acc) =
            rotateFile cfg now ok k fw acc from if_pos hrot]
        rw [rotFold_lookup_preserved cfg now ok rest _ k hrest,
            rotateFile_lookup_self, if_pos hrot]
      · rw [show (if shouldRotate cfg now (k, fw).2 then rotateFile cfg now ok (k, fw).1 (k, fw).2 acc else acc) =
            acc from if_neg hrot]
        rw [rotFold_lookup_preserved cfg now ok rest _ k hrest, if_neg hrot]
    · have hek : e.1 ≠ k := by
        intro hk
        exact hnd.1 (List.mem_map.mpr ⟨(k, fw), hh, hk.symm⟩)
      by_cases hrot : shouldRotate cfg now e.2
      · rw [if_pos hrot, ih _ _ _ hnd.2 hh,
            rotateFile_lookup_other _ _ _ _ _ _ _ (Ne.symm hek)]
      · rw [if_neg hrot]
        exact ih _ _ _ hnd.2 hh

/-- C5: in every invocation of `checkRotation`, an active writer is
rotated if and only if `now - createdAt ≥ rotateInterval` OR
`bytesWritten ≥ rotateSizeBytes` (the disjunction of the two limits):
a triggering writer is replaced by a fresh writer for the same key (or
removed when the replacement's creation fails), and a writer meeting
neither limit is left unchanged in the map. -/
theorem claim_C5_rotation_trigger_is_disjunction :
    ∀ (cfg : Cfg) (now : Nat) (ok : Bool) (st : RecState) (k : Str) (fw : FileWriter),
      (st.currentFiles.map Prod.fst).Nodup → (k, fw) ∈ st.currentFiles →
      (shouldRotate cfg now fw = true ↔
        (cfg.rotateMinutes * 60 ≤ now - fw.createdAt ∨
         cfg.rotateBytes ≤ fw.bytesWritten)) ∧
      alookup (checkRotation cfg now ok st).currentFiles k =
        (if shouldRotate cfg now fw then
          (if ok then some (mkWriter now fw.platform fw.channel) else none)
        else some fw) := by
  intro cfg now ok st k fw hnd hm
  constructor
  · simp [shouldRotate]
  · rw [checkRotation_eq_rotFold, rotFold_lookup_mem cfg now ok _ _ _ _ hnd hm,
        alookup_of_mem_nodup _ _ _ hnd hm]

/-- Witness for C5: one writer over the size limit, one under both limits. -/
theorem claim_C5_witness :
    (([(strL "twitch_a", mkWriter 0 (strL "twitch") (strL "a")),
       (strL "twitch_b",
        { mkWriter 0 (strL "twitch") (strL "b") with bytesWritten := 9 })].map
        (Prod.fst (α := Str) (β := FileWriter))).Nodup ∧
     (strL "twitch_b",
      { mkWriter 0 (strL "twitch") (strL "b") with bytesWritten := 9 }) ∈
       [(strL "twitch_a", mkWriter 0 (strL "twitch") (strL "a")),
        (strL "twitch_b",
         { mkWriter 0 (strL "twitch") (strL "b") with bytesWritten := 9 })]) ∧
    ((shouldRotate ⟨10, 60, 8, 4⟩ 30
        { mkWriter 0 (strL "twitch") (strL "b") with bytesWritten := 9 } = true ↔
      ((60 : Nat) * 60 ≤ 30 - 0 ∨ (8 : Nat) ≤ 9)) ∧
     alookup (checkRotation ⟨10, 60, 8, 4⟩ 30 true
        ⟨[(strL "twitch_a", mkWriter 0 (strL "twitch") (strL "a")),
          (strL "twitch_b",
           { mkWriter 0 (strL "twitch") (strL "b") with bytesWritten := 9 })],
         [], [], []⟩).currentFiles (strL "twitch_b") =
       (if shouldRotate ⟨10, 60, 8, 4⟩ 30
            { mkWriter 0 (strL "twitch") (strL "b") with bytesWritten := 9 } then
          (if true then some (mkWriter 30 (strL "twitch") (strL "b")) else none)
        else some
          { mkWriter 0 (strL "twitch") (strL "b") with bytesWritten := 9 })) :=
  ⟨⟨by decide, by decide⟩,
   claim_C5_rotation_trigger_is_disjunction ⟨10, 60, 8, 4⟩ 30 true
     ⟨[(strL "twitch_a", mkWriter 0 (strL "twitch") (strL "a")),
       (strL "twitch_b",
        { mkWriter 0 (strL "twitch") (strL "b") with bytesWritten := 9 })],
      [], [], []⟩
     (strL "twitch_b")
     { mkWriter 0 (strL "twitch") (strL "b") with bytesWritten := 9 }
     (by decide) (by decide)⟩

/-- A concrete sample message (used by witnesses). -/
def msgA : Msg :=
  ⟨strL "twitch", strL "2025-12-30T10:30:00Z", strL "a", strL "u", strL "1", strL "x", []⟩

/-- A second concrete sample message with the same key as `msgA`. -/
def msgB : Msg := { msgA with body := strL "y" }

/-- C7: when `rotateFile` runs with the delivery queue at capacity, the
enqueue is dropped without blocking: the queue is unchanged, while with
room in the queue the path is appended; every other component of the
resulting state (writer map, disk, creation log) is identical in the two
cases, the replacement writer is installed for the key, and — provided
the replacement filename differs from the closed one — the closed
segment remains on disk with its flushed contents. -/
theorem claim_C7_full_queue_enqueue_dropped :
    ∀ (cfg : Cfg) (now : Nat) (k : Str) (fw : FileWriter) (st : RecState),
      cfg.queueCap ≤ st.queue.length →
      (rotateFile cfg now true k fw st).queue = st.queue ∧
      (rotateFile { cfg with queueCap := st.queue.length + 1 } now true k fw st).queue =
        st.queue ++ [fw.filename] ∧
      (rotateFile cfg now true k fw st).currentFiles =
        (rotateFile { cfg with queueCap := st.queue.length + 1 } now true k fw st).currentFiles ∧
      (rotateFile cfg now true k fw st).disk =
        (rotateFile { cfg with queueCap := st.queue.length + 1 } now true k fw st).disk ∧
      (rotateFile cfg now true k fw st).createdLog =
        (rotateFile { cfg with queueCap := st.queue.length + 1 } now true k fw st).createdLog ∧
      alookup (rotateFile cfg now true k fw st).currentFiles k =
        some (mkWriter now fw.platform fw.channel) ∧
      (wname fw.platform fw.channel now ≠ fw.filename →
        alookup (rotateFile cfg now true k fw st).disk fw.filename =
          some ((alookup st.disk fw.filename).getD [] ++ fw.messageBuffer)) := by
  intro cfg now k fw st h
  have hq : ¬st.queue.length < cfg.queueCap := by omega
  refine ⟨by simp [rotateFile, hq], by simp [rotateFile], by simp [rotateFile],
          by simp [rotateFile], by simp [rotateFile], ?_, ?_⟩
  · show alookup (aset st.currentFiles k (mkWriter now fw.platform fw.channel)) k = _
    exact alookup_aset_self _ _ _
  · intro hne
    show alookup
        (diskCreate (diskAppend st.disk fw.filename fw.messageBuffer)
          (mkWriter now fw.platform fw.channel).filename) fw.filename = _
    have hmk : (mkWriter now fw.platform fw.channel).filename =
        wname fw.platform fw.channel now := rfl
    rw [hmk, diskCreate, alookup_aset_other _ _ _ _ (Ne.symm hne), diskAppend,
        alookup_aset_self]

/-- Witness for C7 at a concrete input. -/
theorem claim_C7_witness :
    (rotateFile ⟨2, 60, 1000, 1⟩ 90 true (strL "twitch_a")
        { mkWriter 0 (strL "twitch") (strL "a") with messageBuffer := [msgA] }
        ⟨[(strL "twitch_a",
           { mkWriter 0 (strL "twitch") (strL "a") with messageBuffer := [msgA] })],
          [(wname (strL "twitch") (strL "a") 0, [])],
          [(strL "twitch_a", wname (strL "twitch") (strL "a") 0)],
          [strL "other.jsonl"]⟩).queue = [strL "other.jsonl"] ∧
    (rotateFile ⟨2, 60, 1000, 2⟩ 90 true (strL "twitch_a")
        { mkWriter 0 (strL "twitch") (strL "a") with messageBuffer := [msgA] }
        ⟨[(strL "twitch_a",
           { mkWriter 0 (strL "twitch") (strL "a") with messageBuffer := [msgA] })],
          [(wname (strL "twitch") (strL "a") 0, [])],
          [(strL "twitch_a", wname (strL "twitch") (strL "a") 0)],
          [strL "other.jsonl"]⟩).queue =
      [strL "other.jsonl"] ++
        [{ mkWriter 0 (strL "twitch") (strL "a") with messageBuffer := [msgA] }.filename] ∧
    alookup (rotateFile ⟨2, 60, 1000, 1⟩ 90 true (strL "twitch_a")
        { mkWriter 0 (strL "twitch") (strL "a") with messageBuffer := [msgA] }
        ⟨[(strL "twitch_a",
           { mkWriter 0 (strL "twitch") (strL "a") with messageBuffer := [msgA] })],
          [(wname (strL "twitch") (strL "a") 0, [])],
          [(strL "twitch_a", wname (strL "twitch") (strL "a") 0)],
          [strL "other.jsonl"]⟩).disk
        { mkWriter 0 (strL "twitch") (strL "a") with messageBuffer := [msgA] }.filename =
      some ((alookup [(wname (strL "twitch") (strL "a") 0, ([] : List Msg))]
        { mkWriter 0 (strL "twitch") (strL "a") with messageBuffer := [msgA] }.filename).getD []
        ++ [msgA]) := by
  have h := claim_C7_full_queue_enqueue_dropped ⟨2, 60, 1000, 1⟩ 90 (strL "twitch_a")
    { mkWriter 0 (strL "twitch") (strL "a") with messageBuffer := [msgA] }
    ⟨[(strL "twitch_a",
       { mkWriter 0 (strL "twitch") (strL "a") with messageBuffer := [msgA] })],
      [(wname (strL "twitch") (strL "a") 0, [])],
      [(strL "twitch_a", wname (strL "twitch") (strL "a") 0)],
      [strL "other.jsonl"]⟩ (by decide)
  exact ⟨h.1, h.2.1, h.2.2.2.2.2.2 (by decide)⟩

/-- C9: the segment filename built by `createFileWriter` is a function
of only the platform, channel and current UTC minute, so two writers
created for the same (platform, channel) in the same UTC minute get the
same filename, and the replacement's `os.Create` truncates the file the
first writer just completed. -/
theorem claim_C9_filename_minute_collision_truncates :
    ∀ (p c : Str) (t1 t2 : Nat),
      t1 / 60 = t2 / 60 →
      wname p c t1 = wname p c t2 ∧
      ∀ (d : List (Str × List Msg)) (contents : List Msg),
        alookup d (wname p c t1) = some contents →
        alookup (diskCreate d (wname p c t2)) (wname p c t1) = some [] := by
  intro p c t1 t2 h
  have hts : timestampStr t1 = timestampStr t2 := by
    unfold timestampStr; rw [h]
  have hw : wname p c t1 = wname p c t2 := by unfold wname; rw [hts]
  refine ⟨hw, fun d contents _ => ?_⟩
  rw [hw, diskCreate, alookup_aset_self]

/-- Witness for C9: 2025-12-30 10:30:00 and 10:30:30 UTC are the same
minute; the second `os.Create` empties the completed file. -/
theorem claim_C9_witness :
    wname (strL "twitch") (strL "ludwig") 1767090600 =
      wname (strL "twitch") (strL "ludwig") 1767090630 ∧
    alookup
      (diskCreate [(wname (strL "twitch") (strL "ludwig") 1767090600, [msgA])]
        (wname (strL "twitch") (strL "ludwig") 1767090630))
      (wname (strL "twitch") (strL "ludwig") 1767090600) = some [] := by
  have h := claim_C9_filename_minute_collision_truncates (strL "twitch") (strL "ludwig")
    1767090600 1767090630 (by decide)
  exact ⟨h.1, h.2 _ [msgA] (by decide)⟩

/-- C10: when the replacement writer's creation fails during rotation,
the key is removed from the writer map; the next `recordMessage` for
that key succeeds, lazily creating a fresh writer that buffers the new
message (stated for `bufferSize ≥ 2`, so the buffer is not flushed on
the spot) — so no message is ever appended to a closed writer. -/
theorem claim_C10_failed_rotation_removes_key :
    ∀ (cfg : Cfg) (now now2 : Nat) (k : Str) (fw : FileWriter) (st : RecState) (msg : Msg),
      msgKey msg = k → 2 ≤ cfg.bufferSize →
      alookup (rotateFile cfg now false k fw st).currentFiles k = none ∧
      (recordMessage cfg now2 true msg (rotateFile cfg now false k fw st)).2 = true ∧
      alookup (recordMessage cfg now2 true msg
          (rotateFile cfg now false k fw st)).1.currentFiles k =
        some { createdAt := now2, bytesWritten := 0, messageBuffer := [msg],
               platform := msg.platform, channel := msg.channel,
               filename := wname msg.platform msg.channel now2 } := by
  intro cfg now now2 k fw st msg hkey hbs
  have h1 : alookup (rotateFile cfg now false k fw st).currentFiles k = none := by
    show alookup (aerase st.currentFiles k) k = none
    exact alookup_aerase_self _ _
  have hnf : ¬cfg.bufferSize ≤ 0 + 1 := by omega
  refine ⟨h1, ?_, ?_⟩
  · simp [recordMessage, hkey, h1]
  · simp only [recordMessage, hkey, h1]
    simp only [appendAndFlush, mkWriter, List.nil_append, List.length_cons,
      List.length_nil, if_neg hnf, if_true]
    exact alookup_aset_self _ _ _

/-- Witness for C10 at a concrete input. -/
theorem claim_C10_witness :
    alookup (rotateFile ⟨2, 60, 1000, 4⟩ 0 false (strL "twitch_a")
        (mkWriter 0 (strL "twitch") (strL "a")) st0).currentFiles (strL "twitch_a") = none ∧
    (recordMessage ⟨2, 60, 1000, 4⟩ 120 true msgA
        (rotateFile ⟨2, 60, 1000, 4⟩ 0 false (strL "twitch_a")
          (mkWriter 0 (strL "twitch") (strL "a")) st0)).2 = true ∧
    alookup (recordMessage ⟨2, 60, 1000, 4⟩ 120 true msgA
        (rotateFile ⟨2, 60, 1000, 4⟩ 0 false (strL "twitch_a")
          (mkWriter 0 (strL "twitch") (strL "a")) st0)).1.currentFiles (strL "twitch_a") =
      some { createdAt := 120, bytesWritten := 0, messageBuffer := [msgA],
             platform := msgA.platform, channel := msgA.channel,
             filename := wname msgA.platform msgA.channel 120 } :=
  claim_C10_failed_rotation_removes_key ⟨2, 60, 1000, 4⟩ 0 120 (strL "twitch_a")
    (mkWriter 0 (strL "twitch") (strL "a")) st0 msgA (by decide) (by decide)

/-! ## Shutdown flush lemmas -/

theorem flushFold_cons (cfg : Cfg) (e : Str × FileWriter)
    (rest : List (Str × FileWriter)) (acc : RecState) :
    (e :: rest).foldl (flushAllStep cfg) acc =
      rest.foldl (flushAllStep cfg) (flushAllStep cfg acc e) := rfl

theorem flushFold_currentFiles_empty (cfg : Cfg) :
    ∀ (l : List (Str × FileWriter)) (acc : RecState),
      acc.currentFiles = l → (l.map Prod.fst).Nodup →
      (l.foldl (flushAllStep cfg) acc).currentFiles = [] := by
  intro l
  induction l with
  | nil => intro acc hacc _; simpa using hacc
  | cons e rest ih =>
    intro acc hacc hnd
    rw [List.map_cons, List.nodup_cons] at hnd
    rw [flushFold_cons]
    apply ih
    · show aerase acc.currentFiles e.1 = rest
      rw [hacc, aerase]
      rw [List.filter_cons_of_neg (by simp)]
      apply List.filter_eq_self.mpr
      intro a ha
      simp only [decide_eq_true_eq]
      intro hk
      exact hnd.1 (List.mem_map.mpr ⟨a, ha, hk⟩)
    · exact hnd.2

theorem flushFold_disk_preserved (cfg : Cfg) :
    ∀ (l : List (Str × FileWriter)) (acc : RecState) (n : Str),
      (∀ e ∈ l, e.2.filename ≠ n) →
      alookup (l.foldl (flushAllStep cfg) acc).disk n = alookup acc.disk n := by
  intro l
  induction l with
  | nil => intro acc n _; rfl
  | cons e rest ih =>
    intro acc n h
    have he : e.2.filename ≠ n := h e (List.mem_cons_self e rest)
    have hrest : ∀ e' ∈ rest, e'.2.filename ≠ n :=
      fun e' m => h e' (List.mem_cons_of_mem e m)
    rw [flushFold_cons, ih _ _ hrest]
    show alookup (diskAppend acc.disk e.2.filename e.2.messageBuffer) n = _
    rw [diskAppend, alookup_aset_other _ _ _ _ (Ne.symm he)]

theorem flushFold_disk_mem (cfg : Cfg) :
    ∀ (l : List (Str × FileWriter)) (acc : RecState) (k : Str) (fw : FileWriter),
      (l.map (fun e => e.2.filename)).Nodup → (k, fw) ∈ l →
      alookup (l.foldl (flushAllStep cfg) acc).disk fw.filename =
        some ((alookup acc.disk fw.filename).getD [] ++ fw.messageBuffer) := by
  intro l
  induction l with
  | nil => intro acc k fw _ hm; cases hm
  | cons e rest ih =>
    intro acc k fw hnd hm
    rw [List.map_cons, List.nodup_cons] at hnd
    rw [flushFold_cons]
    rcases List.mem_cons.mp hm with hh | hh
    · subst hh
      have hrest : ∀ e' ∈ rest, e'.2.filename ≠ fw.filename := by
        intro e' m hek
        exact hnd.1 (List.mem_map.mpr ⟨e', m, hek⟩)
      rw [flushFold_disk_preserved cfg rest _ _ hrest]
      show alookup (diskAppend acc.disk fw.filename fw.messageBuffer) fw.filename = _
      rw [diskAppend, alookup_aset_self]
    · have hek : e.2.filename ≠ fw.filename := by
        intro hk
        exact hnd.1 (List.mem_map.mpr ⟨(k, fw), hh, hk.symm⟩)
      rw [ih _ k fw hnd.2 hh]
      show some ((alookup (diskAppend acc.disk e.2.filename e.2.messageBuffer) fw.filename).getD [] ++ fw.messageBuffer) = _
      rw [diskAppend, alookup_aset_other _ _ _ _ (Ne.symm hek)]

/-- C8: when the shutdown flush `flushAll` returns, every writer that
was active is removed from the writer map (the map is empty), and each
such writer's pending buffer has been appended to its file on disk —
buffered-but-unflushed messages reach disk regardless of whether their
queue enqueue is dropped (the disk conclusion holds for every queue
capacity, including a full queue). -/
theorem claim_C8_shutdown_flushes_and_closes_all :
    ∀ (cfg : Cfg) (st : RecState),
      (st.currentFiles.map Prod.fst).Nodup →
      (st.currentFiles.map (fun e => e.2.filename)).Nodup →
      (flushAll cfg st).currentFiles = [] ∧
      ∀ k fw, (k, fw) ∈ st.currentFiles →
        alookup (flushAll cfg st).disk fw.filename =
          some ((alookup st.disk fw.filename).getD [] ++ fw.messageBuffer) := by
  intro cfg st hk hf
  exact ⟨flushFold_currentFiles_empty cfg st.currentFiles st rfl hk,
         fun k fw hm => flushFold_disk_mem cfg st.currentFiles st k fw hf hm⟩

/-- Witness for C8: two active writers with pending buffers and a full
(zero-capacity) queue; both buffers reach disk and the map empties. -/
theorem claim_C8_witness :
    (flushAll ⟨4, 60, 1000, 0⟩
        ⟨[(strL "twitch_a",
           { mkWriter 0 (strL "twitch") (strL "a") with messageBuffer := [msgA] }),
          (strL "twitch_b",
           { mkWriter 0 (strL "twitch") (strL "b") with messageBuffer := [msgB] })],
          [(wname (strL "twitch") (strL "a") 0, []),
           (wname (strL "twitch") (strL "b") 0, [])],
          [(strL "twitch_a", wname (strL "twitch") (strL "a") 0),
           (strL "twitch_b", wname (strL "twitch") (strL "b") 0)],
          []⟩).currentFiles = [] ∧
    alookup (flushAll ⟨4, 60, 1000, 0⟩
        ⟨[(strL "twitch_a",
           { mkWriter 0 (strL "twitch") (strL "a") with messageBuffer := [msgA] }),
          (strL "twitch_b",
           { mkWriter 0 (strL "twitch") (strL "b") with messageBuffer := [msgB] })],
          [(wname (strL "twitch") (strL "a") 0, []),
           (wname (strL "twitch") (strL "b") 0, [])],
          [(strL "twitch_a", wname (strL "twitch") (strL "a") 0),
           (strL "twitch_b", wname (strL "twitch") (strL "b") 0)],
          []⟩).disk
      { mkWriter 0 (strL "twitch") (strL "a") with messageBuffer := [msgA] }.filename =
    some ((alookup [(wname (strL "twitch") (strL "a") 0, ([] : List Msg)),
                    (wname (strL "twitch") (strL "b") 0, ([] : List Msg))]
      { mkWriter 0 (strL "twitch") (strL "a") with messageBuffer := [msgA] }.filename).getD []
      ++ [msgA]) := by
  have h := claim_C8_shutdown_flushes_and_closes_all ⟨4, 60, 1000, 0⟩
    ⟨[(strL "twitch_a",
       { mkWriter 0 (strL "twitch") (strL "a") with messageBuffer := [msgA] }),
      (strL "twitch_b",
       { mkWriter 0 (strL "twitch") (strL "b") with messageBuffer := [msgB] })],
      [(wname (strL "twitch") (strL "a") 0, []),
       (wname (strL "twitch") (strL "b") 0, [])],
      [(strL "twitch_a", wname (strL "twitch") (strL "a") 0),
       (strL "twitch_b", wname (strL "twitch") (strL "b") 0)],
      []⟩ (by decide) (by decide)
  exact ⟨h.1, h.2 (strL "twitch_a")
    { mkWriter 0 (strL "twitch") (strL "a") with messageBuffer := [msgA] } (by decide)⟩

/-! ## Split/join lemmas for the key-derivation contract -/

theorem splitOnChar_ne_nil (sep : Char) (s : Str) : splitOnChar sep s ≠ [] := by
  induction s with
  | nil => simp [splitOnChar]
  | cons c cs ih =>
    simp only [splitOnChar]
    cases h : splitOnChar sep cs with
    | nil => exact absurd h ih
    | cons r rs => by_cases hc : c = sep <;> simp [hc]

theorem splitOnChar_no_sep (sep : Char) (s : Str) (h : sep ∉ s) :
    splitOnChar sep s = [s] := by
  induction s with
  | nil => rfl
  | cons c cs ih =>
    have hc : ¬c = sep := fun hh => h (hh ▸ List.mem_cons_self c cs)
    have hcs : sep ∉ cs := fun m => h (List.mem_cons_of_mem c m)
    simp only [splitOnChar, ih hcs]
    simp [hc]

theorem splitOnChar_append_sep (sep : Char) :
    ∀ (x rest : Str), sep ∉ x →
      splitOnChar sep (x ++ sep :: rest) = x :: splitOnChar sep rest := by
  intro x
  induction x with
  | nil =>
    intro rest _
    simp only [List.nil_append, splitOnChar]
    cases h : splitOnChar sep rest with
    | nil => exact absurd h (splitOnChar_ne_nil sep rest)
    | cons r rs => simp
  | cons c cs ih =>
    intro rest h
    have hc : ¬c = sep := fun hh => h (hh ▸ List.mem_cons_self c cs)
    have hcs : sep ∉ cs := fun m => h (List.mem_cons_of_mem c m)
    simp only [List.cons_append, splitOnChar, List.append_eq]
    rw [ih rest hcs]
    simp [hc]

theorem splitOnChar_goJoin :
    ∀ (parts : List Str), parts ≠ [] → (∀ p ∈ parts, '_' ∉ p) →
      splitOnChar '_' (goJoin (strL "_") parts) = parts := by
  intro parts
  induction parts with
  | nil => intro hne _; cases hne rfl
  | cons x xs ih =>
    intro _ h
    cases xs with
    | nil => exact splitOnChar_no_sep '_' x (h x (List.mem_cons_self x []))
    | cons y ys =>
      have hstep : goJoin (strL "_") (x :: y :: ys) =
          (x ++ ['_']) ++ goJoin (strL "_") (y :: ys) := rfl
      rw [hstep, List.append_assoc, List.singleton_append,
          splitOnChar_append_sep '_' x _ (h x (List.mem_cons_self x (y :: ys))),
          ih (by simp) (fun p m => h p (List.mem_cons_of_mem x m))]

theorem trimSuffixStr_append (x e : Str) : trimSuffixStr (x ++ e) e = x := by
  rw [trimSuffixStr,
      if_pos (List.isSuffixOf_iff_suffix.mpr ⟨x, rfl⟩)]
  rw [List.length_append]
  have hlen : x.length + e.length - e.length = x.length := by omega
  rw [hlen, List.take_left]

theorem allDigits_no_underscore (l : Str) (h : allDigits l = true) : '_' ∉ l := by
  intro hm
  have := List.all_eq_true.mp h '_' hm
  simp [Char.isDigit] at this

theorem parseGoTimestamp_some_digits (d t : Str) (v : Nat × Nat × Nat)
    (h : parseGoTimestamp d t = some v) :
    allDigits d = true ∧ allDigits t = true := by
  rw [parseGoTimestamp] at h
  by_cases hc : d.length = 8 ∧ allDigits d ∧ t.length = 4 ∧ allDigits t
  · exact ⟨hc.2.1, hc.2.2.2⟩
  · rw [if_neg hc] at h; cases h

/-- C2: for every filename of at least four underscore-separated tokens
whose last two tokens parse as `YYYYMMDD` and `HHMM`, `generateS3Key`
(the spec's `deriveRemoteKey`) returns
`YYYY/MM/DD/<first token>/<middle tokens rejoined with underscores>/<original filename>`;
the first token is the platform and everything between the first token
and the trailing date/time pair is the channel, so channels containing
underscores round-trip exactly. -/
theorem claim_C2_key_derivation_contract :
    ∀ (platform : Str) (mids : List Str) (d t : Str) (y mo da : Nat),
      mids ≠ [] → '_' ∉ platform → (∀ p ∈ mids, '_' ∉ p) →
      parseGoTimestamp d t = some (y, mo, da) →
      generateS3Key (goJoin (strL "_") (platform :: (mids ++ [d, t])) ++ jsonlExt) =
        some (padNum 4 y ++ '/' :: padNum 2 mo ++ '/' :: padNum 2 da ++
              '/' :: platform ++ '/' :: goJoin (strL "_") mids ++
              '/' :: (goJoin (strL "_") (platform :: (mids ++ [d, t])) ++ jsonlExt)) := by
  intro platform mids d t y mo da hne hp hmids hparse
  obtain ⟨hd, ht⟩ := parseGoTimestamp_some_digits d t _ hparse
  have hall : ∀ p ∈ platform :: (mids ++ [d, t]), '_' ∉ p := by
    intro p hp'
    rcases List.mem_cons.mp hp' with rfl | hp'
    · exact hp
    · rcases List.mem_append.mp hp' with h | h
      · exact hmids p h
      · rcases List.mem_cons.mp h with rfl | h
        · exact allDigits_no_underscore _ hd
        · rcases List.mem_cons.mp h with rfl | h
          · exact allDigits_no_underscore _ ht
          · cases h
  have hsplit : splitOnChar '_'
      (trimSuffixStr (goJoin (strL "_") (platform :: (mids ++ [d, t])) ++ jsonlExt)
        jsonlExt) = platform :: (mids ++ [d, t]) := by
    rw [trimSuffixStr_append, splitOnChar_goJoin _ (by simp) hall]
  have hlen : (platform :: (mids ++ [d, t])).length = mids.length + 3 := by
    have hl2 : ([d, t] : List Str).length = 2 := rfl
    rw [List.length_cons, List.length_append, hl2]
  have hgd : (platform :: (mids ++ [d, t])).getD
      ((platform :: (mids ++ [d, t])).length - 2) [] = d := by
    rw [hlen]
    have h32 : mids.length + 3 - 2 = mids.length + 1 := by omega
    rw [h32, List.getD_eq_getElem?_getD, List.getElem?_cons_succ,
        List.getElem?_append_right (Nat.le_refl mids.length)]
    simp
  have hgt : (platform :: (mids ++ [d, t])).getD
      ((platform :: (mids ++ [d, t])).length - 1) [] = t := by
    rw [hlen]
    have h31 : mids.length + 3 - 1 = mids.length + 2 := by omega
    rw [h31, List.getD_eq_getElem?_getD, List.getElem?_cons_succ,
        List.getElem?_append_right (Nat.le_succ_of_le (Nat.le_refl mids.length))]
    have hsub : mids.length + 1 - mids.length = 1 := by omega
    rw [hsub]
    simp
  have hdl : ((platform :: (mids ++ [d, t])).drop 1).dropLast.dropLast = mids := by
    rw [List.drop_one, List.tail_cons,
        show mids ++ [d, t] = (mids ++ [d]) ++ [t] by simp,
        List.dropLast_concat, List.dropLast_concat]
  have hml : 0 < mids.length := List.length_pos.mpr hne
  have hlt : ¬(platform :: (mids ++ [d, t])).length < 4 := by
    rw [hlen]; omega
  simp only [generateS3Key]
  rw [hsplit, if_neg hlt, hgd, hgt, hdl, hparse]
  rfl

/-- Witness for C2: the two concrete derivations named by the spec, one
with a simple channel and one with an underscore-containing channel,
obtained by applying the contract theorem. -/
theorem claim_C2_witness :
    generateS3Key (strL "twitch_ludwig_20251230_1030.jsonl") =
      some (strL "2025/12/30/twitch/ludwig/twitch_ludwig_20251230_1030.jsonl") ∧
    generateS3Key (strL "twitch_some_long_name_20251230_1030.jsonl") =
      some (strL "2025/12/30/twitch/some_long_name/twitch_some_long_name_20251230_1030.jsonl") := by
  have h1 := claim_C2_key_derivation_contract (strL "twitch") [strL "ludwig"]
    (strL "20251230") (strL "1030") 2025 12 30 (by decide) (by decide)
    (by decide) (by decide)
  have h2 := claim_C2_key_derivation_contract (strL "twitch")
    [strL "some", strL "long", strL "name"]
    (strL "20251230") (strL "1030") 2025 12 30 (by decide) (by decide)
    (by decide) (by decide)
  constructor
  · rw [show strL "twitch_ludwig_20251230_1030.jsonl" =
        goJoin (strL "_") (strL "twitch" :: ([strL "ludwig"] ++
          [strL "20251230", strL "1030"])) ++ jsonlExt by decide]
    rw [h1]
    decide
  · rw [show strL "twitch_some_long_name_20251230_1030.jsonl" =
        goJoin (strL "_") (strL "twitch" :: ([strL "some", strL "long", strL "name"] ++
          [strL "20251230", strL "1030"])) ++ jsonlExt by decide]
    rw [h2]
    decide

/-! ## Per-key content accounting for the no-loss/no-duplication claim -/

theorem segConcat_eq_segCat (st : RecState) (k : Str) :
    segConcat st k = segCat st.createdLog st.disk k := rfl

theorem aset_keys_nodup {β : Type} (l : List (Str × β)) (k : Str) (v : β)
    (h : (l.map Prod.fst).Nodup) :
    ((aset l k v).map Prod.fst).Nodup := by
  rw [aset, List.map_append]
  have h1 : ((l.filter (fun e => decide (e.1 ≠ k))).map Prod.fst).Nodup :=
    List.Nodup.sublist ((List.filter_sublist l).map Prod.fst) h
  have h2 : k ∉ (l.filter (fun e => decide (e.1 ≠ k))).map Prod.fst := by
    intro hm
    obtain ⟨e, he, hf⟩ := List.mem_map.mp hm
    have := List.of_mem_filter he
    simp only [decide_eq_true_eq] at this
    exact this hf
  refine List.Nodup.append h1 (by simp) ?_
  intro x hx hk
  simp only [List.map_cons, List.map_nil, List.mem_singleton] at hk
  subst hk
  exact h2 hx

theorem aerase_keys_nodup {β : Type} (l : List (Str × β)) (k : Str)
    (h : (l.map Prod.fst).Nodup) :
    ((aerase l k).map Prod.fst).Nodup :=
  List.Nodup.sublist ((List.filter_sublist l).map Prod.fst) h

theorem segCat_congr (log : List (Str × Str)) (disk disk' : List (Str × List Msg))
    (k : Str)
    (h : ∀ e ∈ log.filter (fun e => decide (e.1 = k)),
      alookup disk' e.2 = alookup disk e.2) :
    segCat log disk' k = segCat log disk k := by
  unfold segCat
  congr 1
  exact List.map_congr_left (fun e he => by rw [h e he])

theorem segCat_log_append_other (log : List (Str × Str))
    (disk : List (Str × List Msg)) (k k' n : Str) (hk : k' ≠ k) :
    segCat (log ++ [(k', n)]) disk k = segCat log disk k := by
  unfold segCat
  rw [List.filter_append]
  have hf : List.filter (fun e => decide (e.1 = k)) [(k', n)] = [] := by
    simp [hk]
  rw [hf, List.append_nil]

theorem segCat_log_append_self (log : List (Str × Str))
    (disk : List (Str × List Msg)) (k n : Str) :
    segCat (log ++ [(k, n)]) disk k =
      segCat log disk k ++ (alookup disk n).getD [] := by
  unfold segCat
  rw [List.filter_append]
  have hf : List.filter (fun e => decide (e.1 = k)) [(k, n)] = [(k, n)] := by
    simp
  rw [hf, List.map_append, List.flatten_append]
  simp

theorem segCat_last_append (log : List (Str × Str)) (disk : List (Str × List Msg))
    (k n : Str) (xs : List Msg) (l' : List (Str × Str))
    (hnd : (log.map Prod.snd).Nodup)
    (hdec : log.filter (fun e => decide (e.1 = k)) = l' ++ [(k, n)]) :
    segCat log (diskAppend disk n xs) k = segCat log disk k ++ xs := by
  unfold segCat
  rw [hdec, List.map_append, List.map_append, List.flatten_append,
      List.flatten_append]
  have hsub : ((l' ++ [(k, n)]).map Prod.snd).Nodup := by
    have hs : (l' ++ [(k, n)]).Sublist log := hdec ▸ List.filter_sublist log
    exact List.Nodup.sublist (hs.map Prod.snd) hnd
  have hnn : ∀ e ∈ l', e.2 ≠ n := by
    intro e he hen
    rw [List.map_append] at hsub
    have hdisj := List.disjoint_of_nodup_append hsub
    exact hdisj (List.mem_map.mpr ⟨e, he, hen⟩) (by simp)
  have hml : l'.map (fun e => (alookup (diskAppend disk n xs) e.2).getD []) =
      l'.map (fun e => (alookup disk e.2).getD []) :=
    List.map_congr_left (fun e he => by
      rw [diskAppend, alookup_aset_other _ _ _ _ (hnn e he)])
  rw [hml]
  have hlast : ([(k, n)].map
      (fun e => (alookup (diskAppend disk n xs) e.2).getD [])).flatten =
      ([(k, n)].map (fun e => (alookup disk e.2).getD [])).flatten ++ xs := by
    simp [diskAppend, alookup_aset_self]
  rw [hlast, ← List.append_assoc]

theorem segCat_other_disk_append (log : List (Str × Str))
    (disk : List (Str × List Msg)) (k k' n : Str) (xs : List Msg)
    (l' : List (Str × Str))
    (hnd : (log.map Prod.snd).Nodup)
    (hdec : log.filter (fun e => decide (e.1 = k)) = l' ++ [(k, n)])
    (hk : k' ≠ k) :
    segCat log (diskAppend disk n xs) k' = segCat log disk k' := by
  apply segCat_congr
  intro e he
  have hkn_mem : (k, n) ∈ log :=
    List.mem_of_mem_filter (p := fun e => decide (e.1 = k))
      (by rw [hdec]; exact List.mem_append_right _ (by simp))
  have hemem : e ∈ log := List.mem_of_mem_filter he
  have he1 : e.1 = k' := by
    have := List.of_mem_filter he
    simpa using this
  have hekn : e.2 ≠ n := by
    intro hen
    have heq : e = (k, n) := List.inj_on_of_nodup_map hnd hemem hkn_mem hen
    rw [heq] at he1
    exact hk he1.symm
  rw [diskAppend, alookup_aset_other _ _ _ _ hekn]

theorem segCat_diskCreate_fresh (log : List (Str × Str))
    (disk : List (Str × List Msg)) (k n : Str)
    (hn : ∀ e ∈ log, e.2 ≠ n) :
    segCat log (diskCreate disk n) k = segCat log disk k := by
  apply segCat_congr
  intro e he
  rw [diskCreate, alookup_aset_other _ _ _ _ (hn e (List.mem_of_mem_filter he))]

/-- The state invariant maintained by the Recorder during normal
operation: writer-map keys are distinct, every active writer sits under
the key built from its own platform/channel, its file is the most
recently created file for that key, and the disk holds exactly the
files named in the creation log. -/
structure RInv (st : RecState) : Prop where
  keyNodup : (st.currentFiles.map Prod.fst).Nodup
  wfKey : ∀ k fw, alookup st.currentFiles k = some fw → fwKey fw = k
  wfLast : ∀ k fw, alookup st.currentFiles k = some fw →
    ∃ l', st.createdLog.filter (fun e => decide (e.1 = k)) = l' ++ [(k, fw.filename)]
  diskLog : ∀ n, (alookup st.disk n).isSome = true ↔ n ∈ st.createdLog.map Prod.snd

theorem RInv_st0 : RInv st0 := by
  refine ⟨List.nodup_nil, ?_, ?_, ?_⟩
  · intro k fw h; cases h
  · intro k fw h; cases h
  · intro n; simp [st0, alookup]

theorem RInv.filename_mem {st : RecState} (h : RInv st) {k : Str} {fw : FileWriter}
    (hlk : alookup st.currentFiles k = some fw) :
    fw.filename ∈ st.createdLog.map Prod.snd := by
  obtain ⟨l', hdec⟩ := h.wfLast k fw hlk
  have : (k, fw.filename) ∈ st.createdLog :=
    List.mem_of_mem_filter (p := fun e => decide (e.1 = k))
      (by rw [hdec]; exact List.mem_append_right _ (by simp))
  exact List.mem_map.mpr ⟨_, this, rfl⟩

theorem diskLog_after_append (disk : List (Str × List Msg)) (names : List Str)
    (n : Str) (xs : List Msg)
    (h : ∀ m, (alookup disk m).isSome = true ↔ m ∈ names) (hn : n ∈ names) :
    ∀ m, (alookup (diskAppend disk n xs) m).isSome = true ↔ m ∈ names := by
  intro m
  by_cases hm : m = n
  · subst hm
    rw [diskAppend, alookup_aset_self]
    simpa using hn
  · rw [diskAppend, alookup_aset_other _ _ _ _ hm]
    exact h m

theorem diskLog_after_create (disk : List (Str × List Msg)) (names : List Str)
    (n : Str)
    (h : ∀ m, (alookup disk m).isSome = true ↔ m ∈ names) :
    ∀ m, (alookup (diskCreate disk n) m).isSome = true ↔ m ∈ names ++ [n] := by
  intro m
  by_cases hm : m = n
  · subst hm
    rw [diskCreate, alookup_aset_self]
    simp
  · rw [diskCreate, alookup_aset_other _ _ _ _ hm]
    rw [h m, List.mem_append, List.mem_singleton]
    exact ⟨Or.inl, fun hh => hh.elim id (fun he => absurd he hm)⟩

theorem history_parts (st : RecState) (k : Str) :
    history st k = segCat st.createdLog st.disk k ++ bufOf st k := rfl

theorem appendAndFlush_effect (cfg : Cfg) (key : Str) (fw : FileWriter) (msg : Msg)
    (st : RecState) (h : RInv st)
    (hlk : alookup st.currentFiles key = some fw)
    (hnd : (st.createdLog.map Prod.snd).Nodup) :
    RInv (appendAndFlush cfg key fw msg st) ∧
    (appendAndFlush cfg key fw msg st).createdLog = st.createdLog ∧
    (∀ k', history (appendAndFlush cfg key fw msg st) k' =
      history st k' ++ (if k' = key then [msg] else [])) := by
  obtain ⟨l', hdec⟩ := h.wfLast key fw hlk
  have hkf : fwKey fw = key := h.wfKey key fw hlk
  simp only [appendAndFlush]
  by_cases hcond : cfg.bufferSize ≤ (fw.messageBuffer ++ [msg]).length
  · -- buffer reached the threshold: flush to disk
    rw [if_pos hcond]
    refine ⟨⟨aset_keys_nodup _ _ _ h.keyNodup, ?_, ?_, ?_⟩, rfl, ?_⟩
    · intro k' fw' hlk'
      by_cases hk : k' = key
      · subst hk
        rw [alookup_aset_self] at hlk'
        cases hlk'
        exact hkf
      · rw [alookup_aset_other _ _ _ _ hk] at hlk'
        exact h.wfKey k' fw' hlk'
    · intro k' fw' hlk'
      by_cases hk : k' = key
      · subst hk
        rw [alookup_aset_self] at hlk'
        cases hlk'
        exact ⟨l', hdec⟩
      · rw [alookup_aset_other _ _ _ _ hk] at hlk'
        exact h.wfLast k' fw' hlk'
    · exact diskLog_after_append st.disk _ fw.filename _ h.diskLog
        (h.filename_mem hlk)
    · intro k'
      by_cases hk : k' = key
      · subst hk
        rw [history_parts, history_parts]
        show segCat st.createdLog
            (diskAppend st.disk fw.filename (fw.messageBuffer ++ [msg])) k' ++
            bufOf _ k' = _
        rw [segCat_last_append st.createdLog st.disk k' fw.filename _ l' hnd hdec]
        have hb : bufOf { st with
            currentFiles := aset st.currentFiles k'
              ((flushFW { fw with messageBuffer := fw.messageBuffer ++ [msg] }
                st.disk).1),
            disk := (flushFW { fw with messageBuffer := fw.messageBuffer ++ [msg] }
                st.disk).2 } k' = [] := by
          unfold bufOf
          rw [alookup_aset_self]
          rfl
        rw [hb, if_pos (show k' = k' from rfl)]
        show segCat st.createdLog st.disk k' ++ (fw.messageBuffer ++ [msg]) ++ [] =
          (segCat st.createdLog st.disk k' ++ bufOf st k') ++ [msg]
        have hbs : bufOf st k' = fw.messageBuffer := by
          unfold bufOf
          rw [hlk]
        rw [hbs, List.append_nil, List.append_assoc]
      · rw [history_parts, history_parts]
        show segCat st.createdLog
            (diskAppend st.disk fw.filename (fw.messageBuffer ++ [msg])) k' ++
            bufOf _ k' = _
        rw [segCat_other_disk_append st.createdLog st.disk key k' fw.filename _ l'
            hnd hdec hk]
        have hb : bufOf { st with
            currentFiles := aset st.currentFiles key
              ((flushFW { fw with messageBuffer := fw.messageBuffer ++ [msg] }
                st.disk).1),
            disk := (flushFW { fw with messageBuffer := fw.messageBuffer ++ [msg] }
                st.disk).2 } k' = bufOf st k' := by
          unfold bufOf
          rw [alookup_aset_other _ _ _ _ hk]
        rw [hb, if_neg hk, List.append_nil]
  · -- below the threshold: only the in-memory buffer grows
    rw [if_neg hcond]
    refine ⟨⟨aset_keys_nodup _ _ _ h.keyNodup, ?_, ?_, h.diskLog⟩, rfl, ?_⟩
    · intro k' fw' hlk'
      by_cases hk : k' = key
      · subst hk
        rw [alookup_aset_self] at hlk'
        cases hlk'
        exact hkf
      · rw [alookup_aset_other _ _ _ _ hk] at hlk'
        exact h.wfKey k' fw' hlk'
    · intro k' fw' hlk'
      by_cases hk : k' = key
      · subst hk
        rw [alookup_aset_self] at hlk'
        cases hlk'
        exact ⟨l', hdec⟩
      · rw [alookup_aset_other _ _ _ _ hk] at hlk'
        exact h.wfLast k' fw' hlk'
    · intro k'
      rw [history_parts, history_parts]
      by_cases hk : k' = key
      · subst hk
        have hb : bufOf { st with
            currentFiles := aset st.currentFiles k'
              { fw with messageBuffer := fw.messageBuffer ++ [msg] } } k' =
            fw.messageBuffer ++ [msg] := by
          unfold bufOf
          rw [alookup_aset_self]
        have hbs : bufOf st k' = fw.messageBuffer := by
          unfold bufOf
          rw [hlk]
        show segCat st.createdLog st.disk k' ++ _ = _
        rw [hb, hbs, if_pos rfl, List.append_assoc]
      · have hb : bufOf { st with
            currentFiles := aset st.currentFiles key
              { fw with messageBuffer := fw.messageBuffer ++ [msg] } } k' =
            bufOf st k' := by
          unfold bufOf
          rw [alookup_aset_other _ _ _ _ hk]
        show segCat st.createdLog st.disk k' ++ _ = _
        rw [hb, if_neg hk, List.append_nil]

theorem appendAndFlush_log (cfg : Cfg) (key : Str) (fw : FileWriter) (msg : Msg)
    (st : RecState) :
    (appendAndFlush cfg key fw msg st).createdLog = st.createdLog := by
  simp only [appendAndFlush]
  split <;> rfl

theorem appendAndFlush_queue (cfg : Cfg) (key : Str) (fw : FileWriter) (msg : Msg)
    (st : RecState) :
    (appendAndFlush cfg key fw msg st).queue = st.queue := by
  simp only [appendAndFlush]
  split <;> rfl


theorem create_effect (st : RecState) (now : Nat) (p c : Str)
    (h : RInv st)
    (hnone : alookup st.currentFiles (p ++ '_' :: c) = none)
    (hfresh : wname p c now ∉ st.createdLog.map Prod.snd) :
    RInv { currentFiles := aset st.currentFiles (p ++ '_' :: c) (mkWriter now p c),
           disk := diskCreate st.disk (wname p c now),
           createdLog := st.createdLog ++ [(p ++ '_' :: c, wname p c now)],
           queue := st.queue } ∧
    (∀ k', history { currentFiles := aset st.currentFiles (p ++ '_' :: c) (mkWriter now p c),
                     disk := diskCreate st.disk (wname p c now),
                     createdLog := st.createdLog ++ [(p ++ '_' :: c, wname p c now)],
                     queue := st.queue } k' = history st k') ∧
    alookup (aset st.currentFiles (p ++ '_' :: c) (mkWriter now p c))
      (p ++ '_' :: c) = some (mkWriter now p c) := by
  have hne : ∀ e ∈ st.createdLog, e.2 ≠ wname p c now := by
    intro e he hen
    exact hfresh (List.mem_map.mpr ⟨e, he, hen⟩)
  refine ⟨⟨aset_keys_nodup _ _ _ h.keyNodup, ?_, ?_, ?_⟩, ?_, alookup_aset_self _ _ _⟩
  · intro k' fw' hlk'
    by_cases hk : k' = p ++ '_' :: c
    · subst hk
      rw [alookup_aset_self] at hlk'
      cases hlk'
      rfl
    · rw [alookup_aset_other _ _ _ _ hk] at hlk'
      exact h.wfKey k' fw' hlk'
  · intro k' fw' hlk'
    by_cases hk : k' = p ++ '_' :: c
    · subst hk
      rw [alookup_aset_self] at hlk'
      cases hlk'
      refine ⟨st.createdLog.filter
        (fun e => decide (e.1 = p ++ '_' :: c)), ?_⟩
      show (st.createdLog ++ [(p ++ '_' :: c, wname p c now)]).filter _ = _
      rw [List.filter_append]
      have hsing : List.filter (fun e => decide (e.1 = p ++ '_' :: c))
          [(p ++ '_' :: c, wname p c now)] = [(p ++ '_' :: c, wname p c now)] := by
        simp
      rw [hsing]
      rfl
    · rw [alookup_aset_other _ _ _ _ hk] at hlk'
      obtain ⟨l', hdec⟩ := h.wfLast k' fw' hlk'
      refine ⟨l', ?_⟩
      show (st.createdLog ++ [(p ++ '_' :: c, wname p c now)]).filter _ = _
      rw [List.filter_append]
      have hksym : ¬p ++ '_' :: c = k' := fun hh => hk hh.symm
      have hone : List.filter (fun e => decide (e.1 = k'))
          [(p ++ '_' :: c, wname p c now)] = [] := by
        simp [hksym]
      rw [hone, List.append_nil, hdec]
  · show ∀ n, (alookup (diskCreate st.disk (wname p c now)) n).isSome = true ↔
      n ∈ ((st.createdLog ++ [(p ++ '_' :: c, wname p c now)]).map Prod.snd)
    intro n
    rw [List.map_append]
    exact diskLog_after_create st.disk _ _ h.diskLog n
  · intro k'
    rw [history_parts, history_parts]
    by_cases hk : k' = p ++ '_' :: c
    · rw [hk]
      show segCat (st.createdLog ++ [(p ++ '_' :: c, wname p c now)])
          (diskCreate st.disk (wname p c now)) (p ++ '_' :: c) ++ _ = _
      rw [segCat_log_append_self, segCat_diskCreate_fresh _ _ _ _ hne]
      have hb1 : bufOf (RecState.mk
            (aset st.currentFiles (p ++ '_' :: c) (mkWriter now p c))
            (diskCreate st.disk (wname p c now))
            (st.createdLog ++ [(p ++ '_' :: c, wname p c now)])
            st.queue) (p ++ '_' :: c) = [] := by
        unfold bufOf
        rw [alookup_aset_self]
        rfl
      have hb0 : bufOf st (p ++ '_' :: c) = [] := by
        unfold bufOf
        rw [hnone]
      rw [hb1, hb0, diskCreate, alookup_aset_self]
      simp
    · show segCat (st.createdLog ++ [(p ++ '_' :: c, wname p c now)])
          (diskCreate st.disk (wname p c now)) k' ++ _ = _
      rw [segCat_log_append_other st.createdLog (diskCreate st.disk (wname p c now))
            k' (p ++ '_' :: c) (wname p c now) (fun hh => hk hh.symm),
          segCat_diskCreate_fresh _ _ _ _ hne]
      have hb1 : bufOf (RecState.mk
            (aset st.currentFiles (p ++ '_' :: c) (mkWriter now p c))
            (diskCreate st.disk (wname p c now))
            (st.createdLog ++ [(p ++ '_' :: c, wname p c now)])
            st.queue) k' = bufOf st k' := by
        unfold bufOf
        rw [alookup_aset_other _ _ _ _ hk]
      rw [hb1]

theorem recordMessage_effect (cfg : Cfg) (now : Nat) (msg : Msg) (st : RecState)
    (h : RInv st)
    (hnd : ((recordMessage cfg now true msg st).1.createdLog.map Prod.snd).Nodup) :
    RInv (recordMessage cfg now true msg st).1 ∧
    (∃ ext, (recordMessage cfg now true msg st).1.createdLog =
      st.createdLog ++ ext) ∧
    (∀ k', history (recordMessage cfg now true msg st).1 k' =
      history st k' ++ (if k' = msgKey msg then [msg] else [])) := by
  cases hlk : alookup st.currentFiles (msgKey msg) with
  | some fw =>
    have heq : (recordMessage cfg now true msg st).1 =
        appendAndFlush cfg (msgKey msg) fw msg st := by
      simp only [recordMessage, hlk]
    rw [heq] at hnd ⊢
    rw [appendAndFlush_log] at hnd
    obtain ⟨hInv, hlog2, hhist⟩ :=
      appendAndFlush_effect cfg (msgKey msg) fw msg st h hlk hnd
    exact ⟨hInv, ⟨[], by rw [hlog2, List.append_nil]⟩, hhist⟩
  | none =>
    have heq : (recordMessage cfg now true msg st).1 =
        appendAndFlush cfg (msgKey msg) (mkWriter now msg.platform msg.channel) msg
          (RecState.mk
            (aset st.currentFiles (msg.platform ++ '_' :: msg.channel)
              (mkWriter now msg.platform msg.channel))
            (diskCreate st.disk (wname msg.platform msg.channel now))
            (st.createdLog ++ [(msg.platform ++ '_' :: msg.channel,
              wname msg.platform msg.channel now)])
            st.queue) := by
      simp only [recordMessage, hlk]
      rfl
    rw [heq] at hnd ⊢
    rw [appendAndFlush_log] at hnd
    have hnd' : ((st.createdLog.map Prod.snd) ++
        [wname msg.platform msg.channel now]).Nodup := by
      simpa using hnd
    have hfresh : wname msg.platform msg.channel now ∉
        st.createdLog.map Prod.snd := by
      intro hm
      exact List.disjoint_of_nodup_append hnd' hm (by simp)
    obtain ⟨hInvc, hhistc, hlkc⟩ :=
      create_effect st now msg.platform msg.channel h hlk hfresh
    obtain ⟨hInv1, hlog1, hhist1⟩ :=
      appendAndFlush_effect cfg (msgKey msg)
        (mkWriter now msg.platform msg.channel) msg _ hInvc hlkc hnd
    refine ⟨hInv1, ?_, ?_⟩
    · exact ⟨[(msg.platform ++ '_' :: msg.channel,
        wname msg.platform msg.channel now)], by rw [hlog1]⟩
    · intro k'
      rw [hhist1 k', hhistc k']

theorem rotateFile_effect (cfg : Cfg) (now : Nat) (key : Str) (fw : FileWriter)
    (st : RecState) (h : RInv st)
    (hlk : alookup st.currentFiles key = some fw)
    (hnd : ((rotateFile cfg now true key fw st).createdLog.map Prod.snd).Nodup) :
    RInv (rotateFile cfg now true key fw st) ∧
    (rotateFile cfg now true key fw st).createdLog =
      st.createdLog ++ [(key, wname fw.platform fw.channel now)] ∧
    (∀ k', history (rotateFile cfg now true key fw st) k' = history st k') := by
  have heq : rotateFile cfg now true key fw st = RecState.mk
      (aset st.currentFiles key (mkWriter now fw.platform fw.channel))
      (diskCreate (diskAppend st.disk fw.filename fw.messageBuffer)
        (wname fw.platform fw.channel now))
      (st.createdLog ++ [(key, wname fw.platform fw.channel now)])
      (if st.queue.length < cfg.queueCap then st.queue ++ [fw.filename]
       else st.queue) := rfl
  rw [heq] at hnd ⊢
  have hnd' : ((st.createdLog.map Prod.snd) ++
      [wname fw.platform fw.channel now]).Nodup := by
    simpa using hnd
  have hnd0 : (st.createdLog.map Prod.snd).Nodup :=
    List.Nodup.of_append_left hnd'
  have hfresh : wname fw.platform fw.channel now ∉ st.createdLog.map Prod.snd := by
    intro hm
    exact List.disjoint_of_nodup_append hnd' hm (by simp)
  have hne : ∀ e ∈ st.createdLog, e.2 ≠ wname fw.platform fw.channel now := by
    intro e he hen
    exact hfresh (List.mem_map.mpr ⟨e, he, hen⟩)
  have hkf : fwKey fw = key := h.wfKey key fw hlk
  obtain ⟨l', hdec⟩ := h.wfLast key fw hlk
  have hfnmem := h.filename_mem hlk
  refine ⟨⟨aset_keys_nodup _ _ _ h.keyNodup, ?_, ?_, ?_⟩, rfl, ?_⟩
  · intro k' fw' hlk'
    by_cases hk : k' = key
    · subst hk
      rw [alookup_aset_self] at hlk'
      cases hlk'
      exact hkf
    · rw [alookup_aset_other _ _ _ _ hk] at hlk'
      exact h.wfKey k' fw' hlk'
  · intro k' fw' hlk'
    by_cases hk : k' = key
    · subst hk
      rw [alookup_aset_self] at hlk'
      cases hlk'
      refine ⟨st.createdLog.filter (fun e => decide (e.1 = k')), ?_⟩
      show (st.createdLog ++ [(k', wname fw.platform fw.channel now)]).filter _ = _
      rw [List.filter_append]
      have hsing : List.filter (fun e => decide (e.1 = k'))
          [(k', wname fw.platform fw.channel now)] =
          [(k', wname fw.platform fw.channel now)] := by
        simp
      rw [hsing]
      rfl
    · rw [alookup_aset_other _ _ _ _ hk] at hlk'
      obtain ⟨l2, hdec2⟩ := h.wfLast k' fw' hlk'
      refine ⟨l2, ?_⟩
      show (st.createdLog ++ [(key, wname fw.platform fw.channel now)]).filter _ = _
      rw [List.filter_append]
      have hksym : ¬key = k' := fun hh => hk hh.symm
      have hone : List.filter (fun e => decide (e.1 = k'))
          [(key, wname fw.platform fw.channel now)] = [] := by
        simp [hksym]
      rw [hone, List.append_nil, hdec2]
  · show ∀ m, (alookup (diskCreate
        (diskAppend st.disk fw.filename fw.messageBuffer)
        (wname fw.platform fw.channel now)) m).isSome = true ↔
      m ∈ ((st.createdLog ++ [(key, wname fw.platform fw.channel now)]).map Prod.snd)
    intro m
    rw [List.map_append]
    exact diskLog_after_create _ _ _
      (diskLog_after_append st.disk _ fw.filename _ h.diskLog hfnmem) m
  · intro k'
    rw [history_parts, history_parts]
    by_cases hk : k' = key
    · rw [hk]
      show segCat (st.createdLog ++ [(key, wname fw.platform fw.channel now)])
          (diskCreate (diskAppend st.disk fw.filename fw.messageBuffer)
            (wname fw.platform fw.channel now)) key ++ _ = _
      have hsome : alookup (diskCreate
          (diskAppend st.disk fw.filename fw.messageBuffer)
          (wname fw.platform fw.channel now))
          (wname fw.platform fw.channel now) = some ([] : List Msg) := by
        rw [diskCreate]
        exact alookup_aset_self _ _ _
      rw [segCat_log_append_self,
          segCat_diskCreate_fresh _ _ _ _ hne,
          segCat_last_append st.createdLog st.disk key fw.filename _ l' hnd0 hdec,
          hsome]
      have hb1 : bufOf (RecState.mk
          (aset st.currentFiles key (mkWriter now fw.platform fw.channel))
          (diskCreate (diskAppend st.disk fw.filename fw.messageBuffer)
            (wname fw.platform fw.channel now))
          (st.createdLog ++ [(key, wname fw.platform fw.channel now)])
          (if st.queue.length < cfg.queueCap then st.queue ++ [fw.filename]
           else st.queue)) key = [] := by
        unfold bufOf
        rw [alookup_aset_self]
        rfl
      have hb0 : bufOf st key = fw.messageBuffer := by
        unfold bufOf
        rw [hlk]
      rw [hb1, hb0]
      simp
    · have hksym : ¬key = k' := fun hh => hk hh.symm
      show segCat (st.createdLog ++ [(key, wname fw.platform fw.channel now)])
          (diskCreate (diskAppend st.disk fw.filename fw.messageBuffer)
            (wname fw.platform fw.channel now)) k' ++ _ = _
      rw [segCat_log_append_other st.createdLog _ k' key
            (wname fw.platform fw.channel now) hksym,
          segCat_diskCreate_fresh _ _ _ _ hne,
          segCat_other_disk_append st.createdLog st.disk key k' fw.filename _ l'
            hnd0 hdec hk]
      have hb1 : bufOf (RecState.mk
          (aset st.currentFiles key (mkWriter now fw.platform fw.channel))
          (diskCreate (diskAppend st.disk fw.filename fw.messageBuffer)
            (wname fw.platform fw.channel now))
          (st.createdLog ++ [(key, wname fw.platform fw.channel now)])
          (if st.queue.length < cfg.queueCap then st.queue ++ [fw.filename]
           else st.queue)) k' = bufOf st k' := by
        unfold bufOf
        rw [alookup_aset_other _ _ _ _ hk]
      rw [hb1]

theorem rotateFile_log_ext (cfg : Cfg) (now : Nat) (ok : Bool) (key : Str)
    (fw : FileWriter) (st : RecState) :
    ∃ ext, (rotateFile cfg now ok key fw st).createdLog = st.createdLog ++ ext := by
  cases ok
  · exact ⟨[], by rw [List.append_nil]; rfl⟩
  · exact ⟨[(key, wname fw.platform fw.channel now)], rfl⟩

theorem rotFold_log_ext (cfg : Cfg) (now : Nat) (ok : Bool) :
    ∀ (l : List (Str × FileWriter)) (acc : RecState),
      ∃ ext, (rotFold cfg now ok l acc).createdLog = acc.createdLog ++ ext := by
  intro l
  induction l with
  | nil => intro acc; exact ⟨[], by rw [List.append_nil]; rfl⟩
  | cons e rest ih =>
    intro acc
    rw [rotFold_cons]
    by_cases hrot : shouldRotate cfg now e.2
    · rw [if_pos hrot]
      obtain ⟨e1, he1⟩ := rotateFile_log_ext cfg now ok e.1 e.2 acc
      obtain ⟨e2, he2⟩ := ih (rotateFile cfg now ok e.1 e.2 acc)
      exact ⟨e1 ++ e2, by rw [he2, he1, List.append_assoc]⟩
    · rw [if_neg hrot]
      exact ih acc

theorem recordMessage_log_ext (cfg : Cfg) (now : Nat) (ok : Bool) (msg : Msg)
    (st : RecState) :
    ∃ ext, (recordMessage cfg now ok msg st).1.createdLog =
      st.createdLog ++ ext := by
  cases hlk : alookup st.currentFiles (msgKey msg) with
  | some fw =>
    refine ⟨[], ?_⟩
    have heq : (recordMessage cfg now ok msg st).1 =
        appendAndFlush cfg (msgKey msg) fw msg st := by
      simp only [recordMessage, hlk]
    rw [heq, appendAndFlush_log, List.append_nil]
  | none =>
    cases ok
    · refine ⟨[], ?_⟩
      have heq : (recordMessage cfg now false msg st).1 = st := by
        simp only [recordMessage, hlk]
        rfl
      rw [heq, List.append_nil]
    · refine ⟨[(msgKey msg, wname msg.platform msg.channel now)], ?_⟩
      have heq : (recordMessage cfg now true msg st).1 =
          appendAndFlush cfg (msgKey msg)
            (mkWriter now msg.platform msg.channel) msg
            (RecState.mk
              (aset st.currentFiles (msg.platform ++ '_' :: msg.channel)
                (mkWriter now msg.platform msg.channel))
              (diskCreate st.disk (wname msg.platform msg.channel now))
              (st.createdLog ++ [(msg.platform ++ '_' :: msg.channel,
                wname msg.platform msg.channel now)])
              st.queue) := by
        simp only [recordMessage, hlk]
        rfl
      rw [heq, appendAndFlush_log]
      rfl

theorem rstep_log_ext (cfg : Cfg) (st : RecState) (op : ROp) :
    ∃ ext, (rstep cfg st op).createdLog = st.createdLog ++ ext := by
  cases op with
  | record now msg => exact recordMessage_log_ext cfg now true msg st
  | tick now => exact rotFold_log_ext cfg now true st.currentFiles st

theorem rrun_log_ext (cfg : Cfg) :
    ∀ (ops : List ROp) (st : RecState),
      ∃ ext, (rrun cfg st ops).createdLog = st.createdLog ++ ext := by
  intro ops
  induction ops with
  | nil => intro st; exact ⟨[], by rw [List.append_nil]; rfl⟩
  | cons op rest ih =>
    intro st
    obtain ⟨e1, he1⟩ := rstep_log_ext cfg st op
    obtain ⟨e2, he2⟩ := ih (rstep cfg st op)
    refine ⟨e1 ++ e2, ?_⟩
    rw [show rrun cfg st (op :: rest) = rrun cfg (rstep cfg st op) rest from rfl,
        he2, he1, List.append_assoc]

theorem rotFold_effect (cfg : Cfg) (now : Nat) :
    ∀ (l : List (Str × FileWriter)) (acc : RecState),
      RInv acc →
      (∀ e ∈ l, alookup acc.currentFiles e.1 = some e.2) →
      (l.map Prod.fst).Nodup →
      ((rotFold cfg now true l acc).createdLog.map Prod.snd).Nodup →
      RInv (rotFold cfg now true l acc) ∧
      (∀ k', history (rotFold cfg now true l acc) k' = history acc k') := by
  intro l
  induction l with
  | nil => intro acc h _ _ _; exact ⟨h, fun _ => rfl⟩
  | cons e rest ih =>
    intro acc h hlive hknd hnd
    rw [rotFold_cons] at hnd ⊢
    rw [List.map_cons, List.nodup_cons] at hknd
    by_cases hrot : shouldRotate cfg now e.2
    · rw [if_pos hrot] at hnd ⊢
      obtain ⟨ext, hext⟩ :=
        rotFold_log_ext cfg now true rest (rotateFile cfg now true e.1 e.2 acc)
      have hnd1 : (((rotateFile cfg now true e.1 e.2 acc).createdLog.map
          Prod.snd)).Nodup := by
        rw [hext, List.map_append] at hnd
        exact List.Nodup.of_append_left hnd
      obtain ⟨hInv1, hlog1, hhist1⟩ :=
        rotateFile_effect cfg now e.1 e.2 acc h
          (hlive e (List.mem_cons_self e rest)) hnd1
      have hlive1 : ∀ e' ∈ rest,
          alookup (rotateFile cfg now true e.1 e.2 acc).currentFiles e'.1 =
            some e'.2 := by
        intro e' m
        rw [rotateFile_lookup_other _ _ _ _ _ _ _
          (fun hh => hknd.1 (List.mem_map.mpr ⟨e', m, hh⟩))]
        exact hlive e' (List.mem_cons_of_mem e m)
      obtain ⟨hInv2, hhist2⟩ := ih _ hInv1 hlive1 hknd.2 hnd
      exact ⟨hInv2, fun k' => by rw [hhist2 k', hhist1 k']⟩
    · rw [if_neg hrot] at hnd ⊢
      exact ih acc h (fun e' m => hlive e' (List.mem_cons_of_mem e m)) hknd.2 hnd

theorem rrun_effect (cfg : Cfg) :
    ∀ (ops : List ROp) (st : RecState),
      RInv st → ((rrun cfg st ops).createdLog.map Prod.snd).Nodup →
      RInv (rrun cfg st ops) ∧
      (∀ k, history (rrun cfg st ops) k = history st k ++ arrivals k ops) := by
  intro ops
  induction ops with
  | nil =>
    intro st h _
    refine ⟨h, fun k => ?_⟩
    show history st k = history st k ++ arrivals k []
    rw [show arrivals k [] = [] from rfl, List.append_nil]
  | cons op rest ih =>
    intro st h hnd
    have hrr : rrun cfg st (op :: rest) = rrun cfg (rstep cfg st op) rest := rfl
    rw [hrr] at hnd ⊢
    obtain ⟨ext, hext⟩ := rrun_log_ext cfg rest (rstep cfg st op)
    have hnd1 : ((rstep cfg st op).createdLog.map Prod.snd).Nodup := by
      rw [hext, List.map_append] at hnd
      exact List.Nodup.of_append_left hnd
    cases op with
    | record now msg =>
      obtain ⟨hInv1, _, hhist1⟩ := recordMessage_effect cfg now msg st h hnd1
      obtain ⟨hInv2, hhist2⟩ := ih _ hInv1 hnd
      refine ⟨hInv2, fun k => ?_⟩
      rw [show rstep cfg st (ROp.record now msg) =
            (recordMessage cfg now true msg st).1 from rfl]
      rw [hhist2 k, hhist1 k, List.append_assoc]
      congr 1
      show (if k = msgKey msg then [msg] else []) ++ arrivals k rest =
        arrivals k (ROp.record now msg :: rest)
      by_cases hk : k = msgKey msg
      · have hk2 : msgKey msg = k := hk.symm
        simp [arrivals, List.filterMap_cons, hk2]
      · have hk2 : ¬msgKey msg = k := fun hh => hk hh.symm
        simp [arrivals, List.filterMap_cons, hk, hk2]
    | tick now =>
      have hlive : ∀ e ∈ st.currentFiles,
          alookup st.currentFiles e.1 = some e.2 := by
        intro e m
        exact alookup_of_mem_nodup _ _ _ h.keyNodup m
      obtain ⟨hInv1, hhist1⟩ :=
        rotFold_effect cfg now st.currentFiles st h hlive h.keyNodup hnd1
      obtain ⟨hInv2, hhist2⟩ := ih _ hInv1 hnd
      refine ⟨hInv2, fun k => ?_⟩
      rw [show rstep cfg st (ROp.tick now) =
            rotFold cfg now true st.currentFiles st from rfl]
      rw [hhist2 k, hhist1 k]
      congr 1

theorem flushAllStep_effect (cfg : Cfg) (acc : RecState) (e : Str × FileWriter)
    (h : RInv acc)
    (hlk : alookup acc.currentFiles e.1 = some e.2)
    (hnd : (acc.createdLog.map Prod.snd).Nodup) :
    RInv (flushAllStep cfg acc e) ∧
    (flushAllStep cfg acc e).createdLog = acc.createdLog ∧
    (∀ k', history (flushAllStep cfg acc e) k' = history acc k') := by
  obtain ⟨l', hdec⟩ := h.wfLast e.1 e.2 hlk
  refine ⟨⟨aerase_keys_nodup _ _ h.keyNodup, ?_, ?_, ?_⟩, rfl, ?_⟩
  · intro k' fw' hlk'
    by_cases hk : k' = e.1
    · subst hk
      rw [show (flushAllStep cfg acc e).currentFiles =
          aerase acc.currentFiles e.1 from rfl, alookup_aerase_self] at hlk'
      cases hlk'
    · rw [show (flushAllStep cfg acc e).currentFiles =
          aerase acc.currentFiles e.1 from rfl,
          alookup_aerase_other _ _ _ hk] at hlk'
      exact h.wfKey k' fw' hlk'
  · intro k' fw' hlk'
    by_cases hk : k' = e.1
    · subst hk
      rw [show (flushAllStep cfg acc e).currentFiles =
          aerase acc.currentFiles e.1 from rfl, alookup_aerase_self] at hlk'
      cases hlk'
    · rw [show (flushAllStep cfg acc e).currentFiles =
          aerase acc.currentFiles e.1 from rfl,
          alookup_aerase_other _ _ _ hk] at hlk'
      exact h.wfLast k' fw' hlk'
  · show ∀ m, (alookup (diskAppend acc.disk e.2.filename e.2.messageBuffer)
        m).isSome = true ↔ m ∈ acc.createdLog.map Prod.snd
    exact diskLog_after_append acc.disk _ e.2.filename _ h.diskLog
      (h.filename_mem hlk)
  · intro k'
    rw [history_parts, history_parts]
    by_cases hk : k' = e.1
    · rw [hk]
      show segCat acc.createdLog
          (diskAppend acc.disk e.2.filename e.2.messageBuffer) e.1 ++ _ = _
      rw [segCat_last_append acc.createdLog acc.disk e.1 e.2.filename _ l' hnd hdec]
      have hb1 : bufOf (flushAllStep cfg acc e) e.1 = [] := by
        unfold bufOf
        rw [show (flushAllStep cfg acc e).currentFiles =
            aerase acc.currentFiles e.1 from rfl, alookup_aerase_self]
      have hb0 : bufOf acc e.1 = e.2.messageBuffer := by
        unfold bufOf
        rw [hlk]
      rw [hb1, hb0, List.append_nil]
    · show segCat acc.createdLog
          (diskAppend acc.disk e.2.filename e.2.messageBuffer) k' ++ _ = _
      rw [segCat_other_disk_append acc.createdLog acc.disk e.1 k' e.2.filename _ l'
            hnd hdec hk]
      have hb1 : bufOf (flushAllStep cfg acc e) k' = bufOf acc k' := by
        unfold bufOf
        rw [show (flushAllStep cfg acc e).currentFiles =
            aerase acc.currentFiles e.1 from rfl,
            alookup_aerase_other _ _ _ hk]
      rw [hb1]

theorem flushFold_effect (cfg : Cfg) :
    ∀ (l : List (Str × FileWriter)) (acc : RecState),
      RInv acc →
      (∀ e ∈ l, alookup acc.currentFiles e.1 = some e.2) →
      (l.map Prod.fst).Nodup →
      (acc.createdLog.map Prod.snd).Nodup →
      ∀ k', history (l.foldl (flushAllStep cfg) acc) k' = history acc k' := by
  intro l
  induction l with
  | nil => intro acc _ _ _ _ k'; rfl
  | cons e rest ih =>
    intro acc h hlive hknd hnd k'
    rw [List.map_cons, List.nodup_cons] at hknd
    rw [flushFold_cons]
    obtain ⟨hInv1, hlog1, hhist1⟩ :=
      flushAllStep_effect cfg acc e h (hlive e (List.mem_cons_self e rest)) hnd
    have hlive1 : ∀ e' ∈ rest,
        alookup (flushAllStep cfg acc e).currentFiles e'.1 = some e'.2 := by
      intro e' m
      rw [show (flushAllStep cfg acc e).currentFiles =
          aerase acc.currentFiles e.1 from rfl,
          alookup_aerase_other _ _ _
            (fun hh => hknd.1 (List.mem_map.mpr ⟨e', m, hh⟩))]
      exact hlive e' (List.mem_cons_of_mem e m)
    rw [ih _ hInv1 hlive1 hknd.2 (hlog1 ▸ hnd) k', hhist1 k']

theorem flushAll_hist (cfg : Cfg) (st : RecState) (h : RInv st)
    (hnd : (st.createdLog.map Prod.snd).Nodup) :
    (flushAll cfg st).currentFiles = [] ∧
    (∀ k, segConcat (flushAll cfg st) k = history st k) := by
  have hlive : ∀ e ∈ st.currentFiles,
      alookup st.currentFiles e.1 = some e.2 := by
    intro e m
    exact alookup_of_mem_nodup _ _ _ h.keyNodup m
  have hcf : (flushAll cfg st).currentFiles = [] :=
    flushFold_currentFiles_empty cfg st.currentFiles st rfl h.keyNodup
  refine ⟨hcf, fun k => ?_⟩
  have hh := flushFold_effect cfg st.currentFiles st h hlive h.keyNodup hnd k
  have hsplit : history (flushAll cfg st) k = segConcat (flushAll cfg st) k := by
    unfold history bufOf
    rw [hcf]
    show segConcat (flushAll cfg st) k ++ [] = _
    rw [List.append_nil]
  rw [← hsplit]
  exact hh

set_option maxRecDepth 8000 in
/-- C1 fails as stated: with `bufferSize = 1`, `rotateSizeBytes = 1` and a
size-triggered rotation 30 seconds after the first message, the
replacement writer is created in the same UTC minute, gets the same
filename, and its `os.Create` truncates the just-completed segment:
the concatenation of the segment files created for the key, in
file-creation order, is then not the arrival sequence (the first
message is lost). -/
theorem claim_C1_counterexample :
    ¬(segConcat (flushAll ⟨1, 999, 1, 10⟩ (rrun ⟨1, 999, 1, 10⟩ st0
        [ROp.record 0 msgA, ROp.tick 30, ROp.record 40 msgB]))
        (strL "twitch_a") =
      arrivals (strL "twitch_a")
        [ROp.record 0 msgA, ROp.tick 30, ROp.record 40 msgB]) := by
  decide

/-- C1 (amended): for every trace of records and rotation ticks in which
all writers created during the run receive pairwise-distinct filenames
(in particular, no two writers for one key are created within the same
UTC minute), the concatenation of the segment files produced for a key,
taken in file-creation order after the final shutdown flush, contains
exactly that key's messages in original arrival order, with none
missing and none duplicated. -/
theorem claim_C1_amended_no_loss_no_dup :
    ∀ (cfg : Cfg) (ops : List ROp) (k : Str),
      ((rrun cfg st0 ops).createdLog.map Prod.snd).Nodup →
      segConcat (flushAll cfg (rrun cfg st0 ops)) k = arrivals k ops := by
  intro cfg ops k hnd
  obtain ⟨hInv, hhist⟩ := rrun_effect cfg ops st0 RInv_st0 hnd
  obtain ⟨hcf, hseg⟩ := flushAll_hist cfg (rrun cfg st0 ops) hInv hnd
  rw [hseg k, hhist k]
  show history st0 k ++ arrivals k ops = arrivals k ops
  rw [show history st0 k = [] from rfl, List.nil_append]

set_option maxRecDepth 8000 in
/-- Witness for the amended C1: a trace whose rotation happens in a
later minute, so all filenames are distinct; the flushed segments
reproduce the arrivals. -/
theorem claim_C1_witness :
    ((rrun ⟨1, 1, 10000, 10⟩ st0
        [ROp.record 0 msgA, ROp.tick 90, ROp.record 100 msgB]).createdLog.map
        Prod.snd).Nodup ∧
    segConcat (flushAll ⟨1, 1, 10000, 10⟩ (rrun ⟨1, 1, 10000, 10⟩ st0
        [ROp.record 0 msgA, ROp.tick 90, ROp.record 100 msgB]))
        (strL "twitch_a") =
      arrivals (strL "twitch_a")
        [ROp.record 0 msgA, ROp.tick 90, ROp.record 100 msgB] :=
  ⟨by decide, claim_C1_amended_no_loss_no_dup ⟨1, 1, 10000, 10⟩
    [ROp.record 0 msgA, ROp.tick 90, ROp.record 100 msgB]
    (strL "twitch_a") (by decide)⟩
